import Mathlib

/-!
Verification development for the graph-upstream ingestion pipeline
(`scripts/init_db.py` and `scripts/neo4j_driver.py`).

The tabular data model mirrors pandas DataFrames: a table is a schema
(column name paired with a dtype tag, string or numeric) together with a
list of rows, each row a list of cell values.  A cell is a string, an
integer, or the null marker (pandas `NaN`).  The graph model mirrors the
Cypher `MERGE` semantics used by `Neo4jHandler`: nodes are identified by
(label, name-value) and carry a property association list; edges are
identified by the full (source, target, relation-type) triple.
-/

set_option autoImplicit false
set_option maxRecDepth 16384

namespace GraphUpstream

/-- Cell values of a pandas table: a string, a number, or `NaN`. -/
inductive Val where
  | vStr (s : String)
  | vNum (n : Int)
  | vNull
deriving DecidableEq, Repr

/-- Column dtype tag: `s` for object/string columns, `n` for numeric ones. -/
inductive CT where
  | s
  | n
deriving DecidableEq, Repr

/-- `MISSING_VALUE = ""` from `init_db.py` line 16 (the constant used by
`unique_non_missing`; note it is not the string written by `fillna`). -/
def MISSING_VALUE : String := ""

/-- `str.strip` on the character list: drop leading and trailing whitespace. -/
def trimChars (l : List Char) : List Char :=
  ((l.dropWhile Char.isWhitespace).reverse.dropWhile Char.isWhitespace).reverse

/-- Python `str.strip()` as used by `pandas.Series.str.strip`. -/
def stripStr (x : String) : String := String.mk (trimChars x.data)

/-- One cell of `fill_and_strip`: in a string column `fillna` writes
`"missing"` and then `.str.strip()` runs over the whole column (a non-string
value in an object column becomes `NaN` under `.str.strip`); in a numeric
column `fillna` writes `-999` and stripping does not apply. -/
def cleanCell : CT → Val → Val
  | CT.s, Val.vNull => Val.vStr (stripStr "missing")
  | CT.s, Val.vStr x => Val.vStr (stripStr x)
  | CT.s, Val.vNum _ => Val.vNull
  | CT.n, Val.vNull => Val.vNum (-999)
  | CT.n, v => v

/-- Clean one row against the schema (cells beyond the row are `NaN`). -/
def cleanRow : List (String × CT) → List Val → List Val
  | [], _ => []
  | c :: sch, [] => cleanCell c.2 Val.vNull :: cleanRow sch []
  | c :: sch, v :: r => cleanCell c.2 v :: cleanRow sch r

/-- A pandas DataFrame: schema (column name, dtype) plus rows of cells. -/
structure Table where
  schema : List (String × CT)
  rows : List (List Val)
deriving DecidableEq, Repr

/-- `fill_and_strip` (init_db.py lines 23-31). -/
def fill_and_strip (t : Table) : Table :=
  ⟨t.schema, t.rows.map (fun r => cleanRow t.schema r)⟩

/-- Column names of a table (`df.columns`). -/
def colNames (t : Table) : List String := t.schema.map (fun p => p.1)

/-- A row as a pandas record/Series: every schema column paired with its
cell (missing trailing cells read as `NaN`). -/
def rowRecord : List (String × CT) → List Val → List (String × Val)
  | [], _ => []
  | c :: sch, [] => (c.1, Val.vNull) :: rowRecord sch []
  | c :: sch, v :: r => (c.1, v) :: rowRecord sch r

/-- First-entry lookup in an association list. -/
def assocLookup (m : List (String × Val)) (k : String) : Option Val :=
  (m.find? (fun p => decide (p.1 = k))).map (fun p => p.2)

/-- `row[c]`: the cell of column `c` in row `r`. -/
def getCell (sch : List (String × CT)) (r : List Val) (c : String) : Val :=
  (assocLookup (rowRecord sch r) c).getD Val.vNull

/-- `df[c]`: the series of column `c`. -/
def getCol (t : Table) (c : String) : List Val :=
  t.rows.map (fun r => getCell t.schema r c)

/-- `Series.unique()`: deduplicate keeping the first occurrence order. -/
def firstDedupAux : List Val → List Val → List Val
  | _, [] => []
  | seen, v :: l =>
    if v ∈ seen then firstDedupAux seen l else v :: firstDedupAux (v :: seen) l

/-- `Series.unique()` entry point. -/
def firstDedup (l : List Val) : List Val := firstDedupAux [] l

/-- `unique_non_missing` (init_db.py lines 38-39):
`series[series != MISSING_VALUE].unique().tolist()`.  Note pandas `!=`
holds for `NaN` against any scalar, matching structural inequality here. -/
def unique_non_missing (l : List Val) : List Val :=
  firstDedup (l.filter (fun v => decide (v ≠ Val.vStr MISSING_VALUE)))

/-- pandas scalar equality (`==`): `NaN` equals nothing, not even itself. -/
def pandasEqB : Val → Val → Bool
  | Val.vStr a, Val.vStr b => decide (a = b)
  | Val.vNum a, Val.vNum b => decide (a = b)
  | _, _ => false

/-- `df.loc[df[key] == item]` restricted to its first row
(`.to_dict('records')` indexed at 0). -/
def firstMatch (t : Table) (key : String) (item : Val) : Option (List Val) :=
  t.rows.find? (fun r => pandasEqB (getCell t.schema r key) item)

/-- Python dict assignment `m[k] = v`: overwrite in place if the key is
present (keeping its position), else append. -/
def setKV (m : List (String × Val)) (k : String) (v : Val) : List (String × Val) :=
  if m.any (fun p => decide (p.1 = k)) then
    m.map (fun p => if p.1 = k then (k, v) else p)
  else m ++ [(k, v)]

/-- The dict comprehension over requested property columns:
pick `record[k]` for each requested `k` that is a key of the record. -/
def projectProps (rec : List (String × Val)) (props : List String) :
    List (String × Val) :=
  props.foldl (fun acc k =>
    match assocLookup rec k with
    | some v => setKV acc k v
    | none => acc) []

/-- The property bag built inside `get_properties` for one item from its
first matching row: projected columns, then `selected["name"] = item`. -/
def bagOfRow (sch : List (String × CT)) (props : List String) (r : List Val)
    (item : Val) : List (String × Val) :=
  setKV (projectProps (rowRecord sch r) props) "name" item

/-- `get_properties` (init_db.py lines 41-50). -/
def get_properties (t : Table) (items : List Val) (key : String)
    (props : List String) : List (List (String × Val)) :=
  items.filterMap (fun item =>
    (firstMatch t key item).map (fun r => bagOfRow t.schema props r item))

/-- `DataFrame.drop_duplicates(subset=[key])`: keep the first row per
distinct key value. -/
def dropDupByAux (sch : List (String × CT)) (key : String) :
    List Val → List (List Val) → List (List Val)
  | _, [] => []
  | seen, r :: rest =>
    if getCell sch r key ∈ seen then dropDupByAux sch key seen rest
    else r :: dropDupByAux sch key (getCell sch r key :: seen) rest

/-- `drop_duplicates` entry point. -/
def dropDupBy (sch : List (String × CT)) (key : String)
    (rows : List (List Val)) : List (List Val) :=
  dropDupByAux sch key [] rows

/-- `get_well_properties` (init_db.py lines 53-65): filter by
`wlbWell.isin(wells)`, drop duplicate wells keeping the first row, then
build one bag per row with `name` set last. -/
def get_well_properties (t : Table) (wells : List Val) (props : List String) :
    List (List (String × Val)) :=
  let filtered := t.rows.filter (fun r =>
    decide (getCell t.schema r "wlbWell" ∈ wells))
  let deduped := dropDupBy t.schema "wlbWell" filtered
  deduped.map (fun r =>
    setKV (projectProps (rowRecord t.schema r) props) "name"
      (getCell t.schema r "wlbWell"))

/-- dtype of a named column, used when a selection rebuilds a schema. -/
def tagOf (t : Table) (c : String) : CT :=
  ((t.schema.find? (fun p => decide (p.1 = c))).map (fun p => p.2)).getD CT.s

/-- `df[cols]`: column selection; raises `KeyError` (here `none`) when any
requested column is absent. -/
def selectCols (t : Table) (cols : List String) : Option Table :=
  if cols.all (fun c => decide (c ∈ colNames t)) then
    some ⟨cols.map (fun c => (c, tagOf t c)),
          t.rows.map (fun r => cols.map (fun c => getCell t.schema r c))⟩
  else none

/-- `df.rename(columns=m)`: rename columns, ignoring absent keys. -/
def renameCols (t : Table) (m : List (String × String)) : Table :=
  ⟨t.schema.map (fun p =>
      match m.find? (fun q => decide (q.1 = p.1)) with
      | some q => (q.2, p.2)
      | none => p),
   t.rows⟩

/-- `get_wellbore_properties` (init_db.py lines 68-80): filter by
`isin`, drop duplicates, select `['wlbWellboreName'] + props` (raising —
`none` — if any is absent), rename the key column to `name`, and emit
the records. -/
def get_wellbore_properties (t : Table) (wellbores : List Val)
    (props : List String) : Option (List (List (String × Val))) :=
  let filtered := t.rows.filter (fun r =>
    decide (getCell t.schema r "wlbWellboreName" ∈ wellbores))
  let deduped := dropDupBy t.schema "wlbWellboreName" filtered
  (selectCols ⟨t.schema, deduped⟩ ("wlbWellboreName" :: props)).map (fun sel =>
    let renamed := renameCols sel [("wlbWellboreName", "name")]
    renamed.rows.map (fun r => rowRecord renamed.schema r))

/-! ### Graph store model (`neo4j_driver.py`)

Nodes are identified by (label, name-value) as every query in the driver
merges on the `name` property; edges by the full (source, target, type)
triple, matching `MERGE (a)-[r:T]->(b)` semantics. -/

/-- An edge tuple: source node id, target node id, relation type. -/
def Edge : Type := (String × Val) × (String × Val) × String

instance : DecidableEq Edge := by unfold Edge; infer_instance

/-- Graph state: nodes (identity with property bag) and edges. -/
structure Graph where
  nodes : List ((String × Val) × List (String × Val))
  edges : List Edge
deriving DecidableEq

/-- The node identities present in the graph. -/
def Graph.ids (g : Graph) : List (String × Val) := g.nodes.map (fun p => p.1)

/-- `MERGE (n:label {name: v})`: create the node when absent, with only its
identity property; no-op when present. -/
def mergeNode (g : Graph) (id : String × Val) : Graph :=
  if id ∈ g.ids then g
  else ⟨g.nodes ++ [(id, [("name", id.2)])], g.edges⟩

/-- `SET n += props`: merge the bag into every node with this identity. -/
def applyBag (m : List (String × Val)) (b : List (String × Val)) :
    List (String × Val) :=
  b.foldl (fun acc p => setKV acc p.1 p.2) m

/-- Apply `SET n += b` at identity `id`. -/
def setProps (g : Graph) (id : String × Val) (b : List (String × Val)) : Graph :=
  ⟨g.nodes.map (fun p => if p.1 = id then (p.1, applyBag p.2 b) else p),
   g.edges⟩

/-- `Neo4jHandler.create_nodes` with `property_key="name"`
(neo4j_driver.py lines 30-47): `UNWIND $values AS val MERGE (n:label ...)`. -/
def create_nodes (g : Graph) (label : String) (values : List Val) : Graph :=
  values.foldl (fun g v => mergeNode g (label, v)) g

/-- `props.name` of a bag (`MERGE (n:label {name: props.name})`). -/
def bagName (b : List (String × Val)) : Val :=
  (assocLookup b "name").getD Val.vNull

/-- `Neo4jHandler.create_nodes_with_props` (neo4j_driver.py lines 49-66):
per bag, `MERGE` on the name then `SET n += props`. -/
def create_nodes_with_props (g : Graph) (label : String)
    (bags : List (List (String × Val))) : Graph :=
  bags.foldl (fun g b =>
    setProps (mergeNode g (label, bagName b)) (label, bagName b) b) g

/-- `MERGE (a)-[r:t]->(b)` with both endpoints already merged: add the edge
when the triple is absent. -/
def addEdgeG (g : Graph) (e : Edge) : Graph :=
  if e ∈ g.edges then g else ⟨g.nodes, g.edges ++ [e]⟩

/-- The effect of one `create_edge` call on an edge tuple: merge both
endpoint nodes, then merge the edge. -/
def upsertEdge (g : Graph) (e : Edge) : Graph :=
  addEdgeG (mergeNode (mergeNode g e.1) e.2.1) e

/-- `Neo4jHandler.create_edge` without `rel_props`
(neo4j_driver.py lines 104-111): merge both endpoint nodes, then the edge. -/
def create_edge (g : Graph) (label1 : String) (v1 : Val) (label2 : String)
    (v2 : Val) (relType : String) : Graph :=
  upsertEdge g ((label1, v1), (label2, v2), relType)

/-- Repeated `create_edge` over an edge list. -/
def edgeBatch (g : Graph) (l : List Edge) : Graph :=
  l.foldl upsertEdge g

/-! ### Pipeline driver (`init_db.py` `main`) -/

/-- `license_properties_columns` (init_db.py lines 95-98). -/
def license_properties_columns : List String :=
  ["prlLicensingActivityName", "prlMainArea", "prlStatus", "prlDateGranted",
   "prlDateValidTo", "prlOriginalArea", "prlCurrentArea", "prlPhaseCurrent",
   "prlFactPageUrl"]

/-- `field_useful_columns` (init_db.py lines 106-109). -/
def field_useful_columns : List String :=
  ["fldName", "cmpLongName", "fldCurrentActivitySatus", "wlbName",
   "wlbCompletionDate", "fldMainArea", "fldOwnerKind", "fldMainSupplyBase",
   "fldHcType"]

/-- `field_rename_mapping` (init_db.py lines 110-113). -/
def field_rename_mapping : List (String × String) :=
  [("fldCurrentActivitySatus", "fldCurrentActivityStatus"),
   ("wlbName", "Discovery_Wellbore")]

/-- `field_properties_columns` (init_db.py lines 114-117). -/
def field_properties_columns : List String :=
  ["cmpLongName", "fldCurrentActivityStatus", "Discovery_Wellbore",
   "wlbCompletionDate", "fldMainArea", "fldOwnerKind", "fldMainSupplyBase",
   "fldHcType"]

/-- `useful_columns` (init_db.py lines 127-134). -/
def useful_columns : List String :=
  ["wlbWellboreName", "wlbWellType", "wlbWell", "wlbDrillingOperator",
   "wlbPurpose", "wlbStatus", "wlbContent", "wlbSubSea", "wlbField",
   "wlbMaxInclation", "wlbKellyBushElevation", "wlbFinalVerticalDepth",
   "wlbTotalDepth", "wlbProductionLicence", "wlbWaterDepth", "wlbKickOffPoint",
   "wlbMultilateral", "wlbDiskosWellboreType", "wlbFactPageUrl", "wlbNsDecDeg",
   "wlbEwDecDeg", "wlbDrillingDays", "wlbEntryYear", "wlbCompletionYear",
   "wlbMainArea", "wlbDrillingFacility", "wlbAgeAtTd", "wlbDiscovery",
   "wlbFacilityTypeDrilling"]

/-- `properties_columns` (init_db.py lines 135-141). -/
def properties_columns : List String :=
  ["wlbPurpose", "wlbStatus", "wlbContent", "latitude", "longitude",
   "wlbSubSea", "wlbMaxInclination", "wlbKellyBushElevation",
   "wlbFinalVerticalDepth", "wlbTotalDepth", "wlbWaterDepth",
   "wlbKickOffPoint", "wlbMultilateral", "wlbDiskosWellboreType",
   "wlbFactPageUrl", "wlbDrillingDays", "wlbEntryYear", "wlbCompletionYear",
   "wlbAgeAtTd", "wlbFacilityTypeDrilling"]

/-- `well_rename_mapping` (init_db.py lines 142-146). -/
def well_rename_mapping : List (String × String) :=
  [("wlbNsDecDeg", "latitude"), ("wlbEwDecDeg", "longitude"),
   ("wlbMaxInclation", "wlbMaxInclination")]

/-- Everything `main` computes before touching the graph store
(init_db.py lines 92-161). -/
structure ExtractState where
  licenseDf : Table
  licenses : List Val
  licensesProps : List (List (String × Val))
  fieldDf : Table
  fields : List Val
  fieldsProps : List (List (String × Val))
  supplyBases : List Val
  wellDf : Table
  areas : List Val
  discoveries : List Val
  wells : List Val
  wellsProps : List (List (String × Val))
  wellbores : List Val
  wellboresProps : List (List (String × Val))
  drillingFacilities : List Val
  facilities : List Val
  operators : List Val
deriving DecidableEq

/-- The extraction half of `main`, in source order: clean, collect unique
identities, build property bags.  `none` models an uncaught `KeyError`
(absent source column). -/
def extractionPhase (licRaw fieldRaw wlbRaw : Table) : Option ExtractState := do
  let licenseDf := fill_and_strip licRaw
  let licenses := unique_non_missing (getCol licenseDf "prlName")
  let licensesProps :=
    get_properties licenseDf licenses "prlName" license_properties_columns
  let fsel ← selectCols fieldRaw field_useful_columns
  let fieldDf := fill_and_strip (renameCols fsel field_rename_mapping)
  let fields := unique_non_missing (getCol fieldDf "fldName")
  let fieldsProps :=
    get_properties fieldDf fields "fldName" field_properties_columns
  let supplyBases := unique_non_missing (getCol fieldDf "fldMainSupplyBase")
  let wsel ← selectCols wlbRaw useful_columns
  let wellDf := fill_and_strip (renameCols wsel well_rename_mapping)
  let areas := unique_non_missing (getCol wellDf "wlbMainArea")
  let discoveries := unique_non_missing (getCol wellDf "wlbDiscovery")
  let wells := unique_non_missing (getCol wellDf "wlbWell")
  let wellsProps := get_well_properties wellDf wells properties_columns
  let wellbores := unique_non_missing (getCol wellDf "wlbWellboreName")
  let wellboresProps ←
    get_wellbore_properties wellDf wellbores properties_columns
  let drillingFacilities :=
    unique_non_missing (getCol wellDf "wlbDrillingFacility")
  let facilities := unique_non_missing (getCol wellDf "wlbFacilityTypeDrilling")
  let operators := unique_non_missing (getCol wellDf "wlbDrillingOperator")
  pure ⟨licenseDf, licenses, licensesProps, fieldDf, fields, fieldsProps,
        supplyBases, wellDf, areas, discoveries, wells, wellsProps, wellbores,
        wellboresProps, drillingFacilities, facilities, operators⟩

/-- One entry of `well_relationships` (init_db.py lines 178-188). -/
structure WellRel where
  wlbMainArea : Val
  wlbProductionLicence : Val
  wlbField : Val
  wlbDiscovery : Val
  wlbWell : Val
  wlbWellboreName : Val
  wlbDrillingFacility : Val
  wlbFacilityTypeDrilling : Val
  wlbDrillingOperator : Val
deriving DecidableEq, Repr

/-- Build one `well_relationships` record from a cleaned row. -/
def rowRel (sch : List (String × CT)) (r : List Val) : WellRel :=
  ⟨getCell sch r "wlbMainArea", getCell sch r "wlbProductionLicence",
   getCell sch r "wlbField", getCell sch r "wlbDiscovery",
   getCell sch r "wlbWell", getCell sch r "wlbWellboreName",
   getCell sch r "wlbDrillingFacility", getCell sch r "wlbFacilityTypeDrilling",
   getCell sch r "wlbDrillingOperator"⟩

/-- The nine `MERGE (x:L {name: row.c})` clauses of the batch Cypher
(init_db.py lines 192-200), in order. -/
def rowRelNodes (w : WellRel) : List (String × Val) :=
  [("Area", w.wlbMainArea), ("License", w.wlbProductionLicence),
   ("Field", w.wlbField), ("Discovery", w.wlbDiscovery),
   ("Well", w.wlbWell), ("Wellbore", w.wlbWellboreName),
   ("DrillingFacility", w.wlbDrillingFacility),
   ("FacilityType", w.wlbFacilityTypeDrilling),
   ("Operator", w.wlbDrillingOperator)]

/-- The eight relationship `MERGE` clauses of the batch Cypher
(init_db.py lines 201-208), in order. -/
def rowRelEdges (w : WellRel) : List Edge :=
  [(("Area", w.wlbMainArea), ("License", w.wlbProductionLicence),
    "HAS_LICENSE"),
   (("License", w.wlbProductionLicence), ("Field", w.wlbField), "HAS_FIELD"),
   (("Field", w.wlbField), ("Discovery", w.wlbDiscovery), "HAS_DISCOVERY"),
   (("Discovery", w.wlbDiscovery), ("Well", w.wlbWell), "HAS_WELL"),
   (("Well", w.wlbWell), ("Wellbore", w.wlbWellboreName), "HAS_WELLBORE"),
   (("Wellbore", w.wlbWellboreName),
    ("DrillingFacility", w.wlbDrillingFacility), "HAS_DRILLING_FACILITY"),
   (("Wellbore", w.wlbWellboreName),
    ("FacilityType", w.wlbFacilityTypeDrilling), "HAS_FACILITY_TYPE_OF"),
   (("Wellbore", w.wlbWellboreName), ("Operator", w.wlbDrillingOperator),
    "WAS_OPERATED_BY")]

/-- Apply the per-row portion of the batch Cypher: merge the nine nodes,
then the eight relationships. -/
def applyWellRow (g : Graph) (w : WellRel) : Graph :=
  (rowRelEdges w).foldl addEdgeG ((rowRelNodes w).foldl mergeNode g)

/-- Observable events of a `main` run, in emission order. -/
inductive Ev where
  | cleanedLicense
  | extractedLicenses
  | builtLicenseBags
  | cleanedField
  | extractedFields
  | builtFieldBags
  | extractedSupplyBases
  | cleanedWell
  | extractedWellSets
  | builtWellBags
  | builtWellboreBags
  | connected
  | connectFail
  | nodesCallEv (label : String)
  | wellRelBatch (n : Nat)
  | wellRelBatchError
  | fieldEdgeError (i : Nat)
  | closedDriver
deriving DecidableEq, Repr

/-- The extraction work of `main`, as trace events (init_db.py 92-161). -/
def extractionTrace : List Ev :=
  [Ev.cleanedLicense, Ev.extractedLicenses, Ev.builtLicenseBags,
   Ev.cleanedField, Ev.extractedFields, Ev.builtFieldBags,
   Ev.extractedSupplyBases, Ev.cleanedWell, Ev.extractedWellSets,
   Ev.builtWellBags, Ev.builtWellboreBags]

/-- One batch of node upserts: plain identities or bags with properties. -/
inductive NodeBatch where
  | plain (vals : List Val)
  | withProps (bags : List (List (String × Val)))
deriving DecidableEq

/-- The ten loader calls of init_db.py lines 165-174, in order. -/
def nodeCalls (st : ExtractState) : List (String × NodeBatch) :=
  [("Area", NodeBatch.plain st.areas),
   ("License", NodeBatch.withProps st.licensesProps),
   ("Discovery", NodeBatch.plain st.discoveries),
   ("Well", NodeBatch.withProps st.wellsProps),
   ("Wellbore", NodeBatch.withProps st.wellboresProps),
   ("DrillingFacility", NodeBatch.plain st.drillingFacilities),
   ("FacilityType", NodeBatch.plain st.facilities),
   ("Operator", NodeBatch.plain st.operators),
   ("Field", NodeBatch.withProps st.fieldsProps),
   ("Base", NodeBatch.plain st.supplyBases)]

/-- Dispatch one loader call. -/
def applyNodeCall (g : Graph) (c : String × NodeBatch) : Graph :=
  match c.2 with
  | NodeBatch.plain vs => create_nodes g c.1 vs
  | NodeBatch.withProps bs => create_nodes_with_props g c.1 bs

/-- The single bulk well-relationship submission (init_db.py lines 210-216):
one `session.run` guarded by one try/except.  `batchFails` models the call
raising; the whole batch is then lost and one error is logged, without a
row index. -/
def wellBatch (g : Graph) (ws : List WellRel) (batchFails : Bool) :
    Graph × List Ev :=
  if batchFails then (g, [Ev.wellRelBatchError])
  else (ws.foldl applyWellRow g, [Ev.wellRelBatch ws.length])

/-- The field relationship loop (init_db.py lines 219-225).  `f1 i` models
the MANAGES `create_edge` raising at row `i`; `f2 i` the HAS_SUPPLYBASE_OF
call raising.  A raising row logs one error with its index and the loop
continues with the next row. -/
def fieldLoopAux (sch : List (String × CT)) (f1 f2 : Nat → Bool) :
    Nat → Graph → List (List Val) → Graph × List Ev
  | _, g, [] => (g, [])
  | i, g, r :: rest =>
    if f1 i then
      let res := fieldLoopAux sch f1 f2 (i + 1) g rest
      (res.1, Ev.fieldEdgeError i :: res.2)
    else
      let g1 := create_edge g "Operator" (getCell sch r "cmpLongName")
        "Field" (getCell sch r "fldName") "MANAGES"
      if f2 i then
        let res := fieldLoopAux sch f1 f2 (i + 1) g1 rest
        (res.1, Ev.fieldEdgeError i :: res.2)
      else
        let g2 := create_edge g1 "Field" (getCell sch r "fldName")
          "Base" (getCell sch r "fldMainSupplyBase") "HAS_SUPPLYBASE_OF"
        fieldLoopAux sch f1 f2 (i + 1) g2 rest

/-- `main` (init_db.py lines 83-227).  Extraction runs first; the
`Neo4jHandler` is constructed afterwards (`connectOk = false` models the
startup `RETURN 1` probe raising, which propagates and aborts the run);
only then are the loader calls, the well-relationship batch and the field
loop executed.  Returns the event trace and the final graph (none if the
run aborted before any store mutation). -/
def mainRun (licRaw fieldRaw wlbRaw : Table) (g0 : Graph)
    (connectOk batchFails : Bool) (f1 f2 : Nat → Bool) :
    List Ev × Option Graph :=
  match extractionPhase licRaw fieldRaw wlbRaw with
  | none => ([], none)
  | some st =>
    if connectOk then
      let g1 := (nodeCalls st).foldl applyNodeCall g0
      let wres := wellBatch g1
        (st.wellDf.rows.map (fun r => rowRel st.wellDf.schema r)) batchFails
      let fres := fieldLoopAux st.fieldDf.schema f1 f2 0 wres.1 st.fieldDf.rows
      (extractionTrace ++ [Ev.connected]
         ++ (nodeCalls st).map (fun c => Ev.nodesCallEv c.1)
         ++ wres.2 ++ fres.2 ++ [Ev.closedDriver],
       some fres.1)
    else (extractionTrace ++ [Ev.connectFail], none)

/-! ### Well-typed tables

pandas columns are homogeneously typed: an object/string column read by
`read_csv` holds strings and `NaN`, a numeric column holds numbers and
`NaN`.  `TypeOk` captures this dtype discipline. -/

/-- A cell is well-typed for its column's dtype tag. -/
def cellOk : CT → Val → Bool
  | CT.s, Val.vStr _ => true
  | CT.s, Val.vNull => true
  | CT.n, Val.vNum _ => true
  | CT.n, Val.vNull => true
  | _, _ => false

/-- Every cell of every row is well-typed for its column. -/
def Table.TypeOk (t : Table) : Prop :=
  ∀ r ∈ t.rows, ∀ p ∈ t.schema.zip r, cellOk p.1.2 p.2 = true

instance (t : Table) : Decidable t.TypeOk := by
  unfold Table.TypeOk; infer_instance

/-! ### Idempotence of stripping and cleaning -/

theorem head?_dropWhile_ws {α} (p : α → Bool) (l : List α) :
    ∀ a, (l.dropWhile p).head? = some a → p a = false := by
  induction l with
  | nil => intro a h; simp [List.dropWhile] at h
  | cons x xs ih =>
    intro a h
    rw [List.dropWhile_cons] at h
    by_cases hx : p x
    · rw [if_pos hx] at h; exact ih a h
    · rw [if_neg hx] at h
      simp only [List.head?_cons, Option.some.injEq] at h
      rw [← h]
      exact Bool.of_not_eq_true hx

theorem dropWhile_eq_self_of_head {α} (p : α → Bool) (l : List α)
    (h : ∀ a, l.head? = some a → p a = false) : l.dropWhile p = l := by
  cases l with
  | nil => rfl
  | cons x xs =>
    rw [List.dropWhile_cons, if_neg]
    simp [h x rfl]

theorem reverse_head?_dropWhile {α} (p : α → Bool) (l : List α)
    (h : l.dropWhile p ≠ []) :
    (l.dropWhile p).reverse.head? = l.reverse.head? := by
  conv_rhs => rw [← List.takeWhile_append_dropWhile (p := p) (l := l)]
  rw [List.reverse_append]
  cases hrev : (l.dropWhile p).reverse with
  | nil => exact absurd (List.reverse_eq_nil_iff.mp hrev) h
  | cons y ys => simp [hrev]

theorem trimChars_idem (l : List Char) :
    trimChars (trimChars l) = trimChars l := by
  unfold trimChars
  set ws := Char.isWhitespace with hws
  set A := l.dropWhile ws with hA
  set B := A.reverse.dropWhile ws with hB
  by_cases hBnil : B = []
  · simp [hBnil]
  · have hAnil : A ≠ [] := by
      intro hx
      apply hBnil
      rw [hB, hx]
      rfl
    have hrevhead : B.reverse.head? = A.head? := by
      rw [hB, reverse_head?_dropWhile ws A.reverse]
      · rw [List.reverse_reverse]
      · rw [← hB]; exact hBnil
    have hheadA : ∀ a, A.head? = some a → ws a = false := by
      intro a ha
      exact head?_dropWhile_ws ws l a (hA ▸ ha)
    have h1 : B.reverse.dropWhile ws = B.reverse := by
      apply dropWhile_eq_self_of_head
      intro a ha
      exact hheadA a (hrevhead ▸ ha)
    have h2 : B.dropWhile ws = B := by
      apply dropWhile_eq_self_of_head
      intro a ha
      exact head?_dropWhile_ws ws A.reverse a (hB ▸ ha)
    rw [h1, List.reverse_reverse, h2]

theorem stripStr_idem (x : String) : stripStr (stripStr x) = stripStr x := by
  unfold stripStr
  exact congrArg String.mk (trimChars_idem x.data)

theorem cleanCell_idem (ct : CT) (v : Val) (h : cellOk ct v = true) :
    cleanCell ct (cleanCell ct v) = cleanCell ct v := by
  cases ct <;> cases v <;> simp_all [cleanCell, cellOk, stripStr_idem]

theorem cleanRow_idem (sch : List (String × CT)) (r : List Val)
    (h : ∀ p ∈ sch.zip r, cellOk p.1.2 p.2 = true) :
    cleanRow sch (cleanRow sch r) = cleanRow sch r := by
  induction sch generalizing r with
  | nil => rfl
  | cons c sch ih =>
    cases r with
    | nil =>
      show cleanCell c.2 (cleanCell c.2 Val.vNull) :: _ = _
      rw [cleanCell_idem c.2 Val.vNull (by cases c.2 <;> rfl)]
      rw [ih [] (by intro p hp; simp at hp)]
      rfl
    | cons v r =>
      show cleanCell c.2 (cleanCell c.2 v) :: _ = _
      rw [cleanCell_idem c.2 v (h (c, v) (by simp))]
      rw [ih r (by intro p hp; exact h p (List.mem_cons_of_mem _ hp))]
      rfl

/-! ### Concrete tables used by witnesses and counterexamples -/

/-- A license table with one present and one absent `prlName` cell. -/
def ceLicenseTable : Table :=
  ⟨[("prlName", CT.s)], [[Val.vStr "L1"], [Val.vNull]]⟩

/-- A field table with one row (`fldName` F1, `cmpLongName` Op1,
`fldMainSupplyBase` SB1). -/
def ceFieldTable : Table :=
  ⟨field_useful_columns.map (fun c => (c, CT.s)),
   [[Val.vStr "F1", Val.vStr "Op1", Val.vStr "x", Val.vStr "x", Val.vStr "x",
     Val.vStr "x", Val.vStr "x", Val.vStr "SB1", Val.vStr "x"]]⟩

/-- A well/wellbore table with two rows (wells W1/W2, wellbores WB1/WB2,
all other cells the string A). -/
def ceWellTable : Table :=
  ⟨useful_columns.map (fun c => (c, CT.s)),
   [useful_columns.map (fun c =>
      if c = "wlbWell" then Val.vStr "W1"
      else if c = "wlbWellboreName" then Val.vStr "WB1" else Val.vStr "A"),
    useful_columns.map (fun c =>
      if c = "wlbWell" then Val.vStr "W2"
      else if c = "wlbWellboreName" then Val.vStr "WB2" else Val.vStr "A")]⟩

/-- A wellbore table lacking every property column. -/
def ceWellboreOnlyTable : Table :=
  ⟨[("wlbWellboreName", CT.s)], [[Val.vStr "WB1"]]⟩

/-- The empty graph. -/
def emptyGraph : Graph := ⟨[], []⟩

/-! ### C9 — cleaning is idempotent -/

/-- Claim C9: cleaning is idempotent: for every (dtype-consistent) raw
table, applying `fill_and_strip` twice gives the same table as applying it
once — missing-value substitution and whitespace stripping reach a fixed
point after one application. -/
theorem c9_clean_idempotent (t : Table) (h : t.TypeOk) :
    fill_and_strip (fill_and_strip t) = fill_and_strip t := by
  unfold fill_and_strip
  simp only [List.map_map]
  congr 1
  apply List.map_congr_left
  intro r hr
  exact cleanRow_idem t.schema r (h r hr)

/-- Witness for C9 at a concrete table containing an absent cell. -/
theorem c9_clean_idempotent_witness :
    ceLicenseTable.TypeOk ∧
      fill_and_strip (fill_and_strip ceLicenseTable) =
        fill_and_strip ceLicenseTable :=
  ⟨by decide, c9_clean_idempotent ceLicenseTable (by decide)⟩

/-! ### First-occurrence dedup lemmas -/

theorem mem_firstDedupAux_iff (v : Val) :
    ∀ (l seen : List Val), v ∈ firstDedupAux seen l ↔ v ∈ l ∧ v ∉ seen := by
  intro l
  induction l with
  | nil => intro seen; simp [firstDedupAux]
  | cons x xs ih =>
    intro seen
    unfold firstDedupAux
    by_cases hx : x ∈ seen
    · rw [if_pos hx, ih seen]
      constructor
      · rintro ⟨hv, hns⟩
        exact ⟨List.mem_cons_of_mem _ hv, hns⟩
      · rintro ⟨hv, hns⟩
        rcases List.mem_cons.mp hv with h | h
        · exact absurd (h ▸ hx) hns
        · exact ⟨h, hns⟩
    · rw [if_neg hx]
      constructor
      · intro hv
        rcases List.mem_cons.mp hv with h | h
        · exact ⟨h ▸ List.mem_cons_self x xs, h ▸ hx⟩
        · have := (ih (x :: seen)).mp h
          refine ⟨List.mem_cons_of_mem _ this.1, ?_⟩
          intro hs
          exact this.2 (List.mem_cons_of_mem _ hs)
      · rintro ⟨hv, hns⟩
        rcases List.mem_cons.mp hv with h | h
        · exact h ▸ List.mem_cons_self x _
        · by_cases hvx : v = x
          · exact hvx ▸ List.mem_cons_self x _
          · exact List.mem_cons_of_mem _
              ((ih (x :: seen)).mpr ⟨h, by simp [hvx, hns]⟩)

theorem mem_firstDedup_iff (v : Val) (l : List Val) :
    v ∈ firstDedup l ↔ v ∈ l := by
  rw [firstDedup, mem_firstDedupAux_iff]
  simp

theorem firstDedupAux_nodup :
    ∀ (l seen : List Val), (firstDedupAux seen l).Nodup := by
  intro l
  induction l with
  | nil => intro seen; exact List.nodup_nil
  | cons x xs ih =>
    intro seen
    unfold firstDedupAux
    by_cases hx : x ∈ seen
    · rw [if_pos hx]; exact ih seen
    · rw [if_neg hx]
      refine List.Nodup.cons ?_ (ih (x :: seen))
      intro hmem
      exact ((mem_firstDedupAux_iff x xs (x :: seen)).mp hmem).2
        (List.mem_cons_self x seen)

theorem firstDedup_nodup (l : List Val) : (firstDedup l).Nodup :=
  firstDedupAux_nodup l []

/-! ### C1 — extraction and the missing sentinel -/

theorem rowRecord_keys (sch : List (String × CT)) (r : List Val) :
    (rowRecord sch r).map (fun p => p.1) = sch.map (fun p => p.1) := by
  induction sch generalizing r with
  | nil => rfl
  | cons c sch ih =>
    cases r with
    | nil => simpa [rowRecord] using ih []
    | cons v r => simpa [rowRecord] using ih r

theorem mem_rowRecord_cleanRow (sch : List (String × CT)) (r : List Val)
    (hr : ∀ p ∈ sch.zip r, cellOk p.1.2 p.2 = true) :
    ∀ q ∈ rowRecord sch (cleanRow sch r),
      ∃ ct v0, (q.1, ct) ∈ sch ∧ cellOk ct v0 = true ∧ q.2 = cleanCell ct v0 := by
  induction sch generalizing r with
  | nil => intro q hq; simp [rowRecord, cleanRow] at hq
  | cons c sch ih =>
    cases r with
    | nil =>
      intro q hq
      rcases List.mem_cons.mp hq with h | h
      · exact ⟨c.2, Val.vNull, by simp [h], by cases c.2 <;> rfl, by simp [h]⟩
      · rcases ih [] (by intro p hp; simp at hp) q h with ⟨ct, v0, hm, hok, he⟩
        exact ⟨ct, v0, List.mem_cons_of_mem _ hm, hok, he⟩
    | cons v r =>
      intro q hq
      rcases List.mem_cons.mp hq with h | h
      · exact ⟨c.2, v, by simp [h], hr (c, v) (by simp), by simp [h]⟩
      · rcases ih r (by intro p hp; exact hr p (List.mem_cons_of_mem _ hp)) q h
          with ⟨ct, v0, hm, hok, he⟩
        exact ⟨ct, v0, List.mem_cons_of_mem _ hm, hok, he⟩

/-- Claim C1 (amended): no output of `unique_non_missing` ever equals the
`MISSING_VALUE` constant (the empty string), and on a dtype-consistent
table every extracted identity from a string column is a string.  The
claim as frozen is false: `fill_and_strip` substitutes the literal
`"missing"`, which `unique_non_missing` does not exclude, so the sentinel
written into absent cells does reach the outputs (see the
counterexample). -/
theorem c1_extraction_excludes_empty_sentinel (t : Table) (col : String)
    (h1 : t.TypeOk) (h2 : ∀ p ∈ t.schema, p.1 = col → p.2 = CT.s) :
    ∀ v ∈ unique_non_missing (getCol (fill_and_strip t) col),
      v ≠ Val.vStr MISSING_VALUE ∧
        (col ∈ colNames t → ∃ s, v = Val.vStr s ∧ s ≠ MISSING_VALUE) := by
  intro v hv
  rw [unique_non_missing, mem_firstDedup_iff] at hv
  rcases List.mem_filter.mp hv with ⟨hmem, hne⟩
  have hvne : v ≠ Val.vStr MISSING_VALUE := by
    intro h; rw [h] at hne; simp at hne
  refine ⟨hvne, ?_⟩
  intro hcol
  rcases List.mem_map.mp hmem with ⟨r, hrmem, hcell⟩
  rcases List.mem_map.mp hrmem with ⟨r0, hr0, hclean⟩
  cases hqfind : (rowRecord t.schema (cleanRow t.schema r0)).find?
      (fun p => decide (p.1 = col)) with
  | none =>
    exfalso
    have hcol' : col ∈
        (rowRecord t.schema (cleanRow t.schema r0)).map (fun p => p.1) := by
      rw [rowRecord_keys]
      exact hcol
    rcases List.mem_map.mp hcol' with ⟨q, hq, hq1⟩
    have := List.find?_eq_none.mp hqfind q hq
    simp [hq1] at this
  | some q =>
  have hq1 : q.1 = col := by
    have := List.find?_some hqfind
    simpa using this
  have hqmem := List.mem_of_find?_eq_some hqfind
  rcases mem_rowRecord_cleanRow t.schema r0 (h1 r0 hr0) q hqmem
    with ⟨ct, v0, hms, hok, hcc⟩
  have hct : ct = CT.s := h2 (q.1, ct) hms hq1
  have hvq : v = q.2 := by
    rw [← hcell, ← hclean]
    show (Option.map (fun p => p.2)
        ((rowRecord t.schema (cleanRow t.schema r0)).find?
          (fun p => decide (p.1 = col)))).getD Val.vNull = q.2
    rw [hqfind]
    rfl
  subst hct
  cases v0 with
  | vStr s0 =>
    refine ⟨stripStr s0, by rw [hvq, hcc]; rfl, ?_⟩
    intro hs
    exact hvne (by rw [hvq, hcc, show cleanCell CT.s (Val.vStr s0) =
      Val.vStr (stripStr s0) from rfl, hs])
  | vNum n0 => simp [cellOk] at hok
  | vNull =>
    refine ⟨stripStr "missing", by rw [hvq, hcc]; rfl, ?_⟩
    intro hs
    exact hvne (by rw [hvq, hcc, show cleanCell CT.s Val.vNull =
      Val.vStr (stripStr "missing") from rfl, hs])

/-- Witness for C1 (amended) at the concrete license table. -/
theorem c1_extraction_excludes_empty_sentinel_witness :
    ceLicenseTable.TypeOk ∧
      (Val.vStr "missing" ∈
          unique_non_missing (getCol (fill_and_strip ceLicenseTable) "prlName") →
        Val.vStr "missing" ≠ Val.vStr MISSING_VALUE) := by
  refine ⟨by decide, ?_⟩
  intro hmem
  exact (c1_extraction_excludes_empty_sentinel ceLicenseTable "prlName"
    (by decide) (by decide) (Val.vStr "missing") hmem).1

/-- Counterexample to C1 as frozen: in the cleaned license table, the
absent cell was filled with the sentinel `"missing"` by `fill_and_strip`,
and exactly that value appears in the output of `unique_non_missing` —
an entity name equal to the sentinel written into string columns. -/
theorem c1_fill_sentinel_emitted :
    getCell ceLicenseTable.schema (ceLicenseTable.rows.getD 1 []) "prlName"
        = Val.vNull ∧
      getCell (fill_and_strip ceLicenseTable).schema
          ((fill_and_strip ceLicenseTable).rows.getD 1 []) "prlName"
        = Val.vStr "missing" ∧
      Val.vStr "missing" ∈
        unique_non_missing (getCol (fill_and_strip ceLicenseTable) "prlName") := by
  decide

/-! ### Association-list lemmas for `setKV` -/

theorem find?_map_replace (m : List (String × Val)) (k : String) (v : Val) :
    ((m.map (fun p => if p.1 = k then (k, v) else p)).find?
        (fun p => decide (p.1 = k))) =
      if m.any (fun p => decide (p.1 = k)) then some (k, v) else none := by
  induction m with
  | nil => rfl
  | cons x xs ih =>
    by_cases hx : x.1 = k
    · simp [List.find?, hx]
    · simp only [List.map_cons, List.any_cons]
      rw [List.find?_cons_of_neg _ (by simp [hx]), ih]
      simp only [decide_eq_false hx, Bool.false_or]

theorem assocLookup_setKV_self (m : List (String × Val)) (k : String) (v : Val) :
    assocLookup (setKV m k v) k = some v := by
  unfold setKV assocLookup
  by_cases h : m.any (fun p => decide (p.1 = k))
  · rw [if_pos h, find?_map_replace, if_pos h]
    rfl
  · rw [if_neg h, List.find?_append]
    have hnone : m.find? (fun p => decide (p.1 = k)) = none := by
      rw [List.find?_eq_none]
      intro x hx
      simp only [decide_eq_true_eq]
      intro hk
      exact h (List.any_eq_true.mpr ⟨x, hx, by simp [hk]⟩)
    rw [hnone]
    simp [List.find?]

theorem assocLookup_setKV_other (m : List (String × Val)) (k : String) (v : Val)
    (c : String) (h : c ≠ k) : assocLookup (setKV m k v) c = assocLookup m c := by
  unfold setKV assocLookup
  by_cases hany : m.any (fun p => decide (p.1 = k))
  · rw [if_pos hany]
    clear hany
    induction m with
    | nil => rfl
    | cons x xs ih =>
      by_cases hx : x.1 = k
      · have hxne : ¬ x.1 = c := by rw [hx]; exact fun hh => h hh.symm
        simp only [List.map_cons, if_pos hx]
        rw [List.find?_cons_of_neg _ (by simpa using fun hh => h hh.symm),
          List.find?_cons_of_neg _ (by simpa using hxne)]
        exact ih
      · simp only [List.map_cons, if_neg hx]
        by_cases hxc : x.1 = c
        · rw [List.find?_cons_of_pos _ (by simpa using hxc),
            List.find?_cons_of_pos _ (by simpa using hxc)]
        · rw [List.find?_cons_of_neg _ (by simpa using hxc),
            List.find?_cons_of_neg _ (by simpa using hxc)]
          exact ih
  · rw [if_neg hany, List.find?_append]
    have : List.find? (fun p => decide (p.1 = c)) [(k, v)] = none := by
      have hkc : decide (k = c) = false := decide_eq_false (fun hh => h hh.symm)
      simp [List.find?, hkc]
    rw [this]
    cases m.find? (fun p => decide (p.1 = c)) <;> rfl

theorem bagName_setKV_name (m : List (String × Val)) (v : Val) :
    bagName (setKV m "name" v) = v := by
  unfold bagName
  rw [assocLookup_setKV_self]
  rfl

/-! ### C3 — absent property columns -/

theorem assocLookup_rowRecord_none (sch : List (String × CT)) (r : List Val)
    (k : String) :
    assocLookup (rowRecord sch r) k = none ↔
      k ∉ sch.map (fun p => p.1) := by
  unfold assocLookup
  rw [Option.map_eq_none', List.find?_eq_none]
  constructor
  · intro h hk
    rw [← rowRecord_keys sch r] at hk
    rcases List.mem_map.mp hk with ⟨q, hq, hq1⟩
    exact h q hq (by simp [hq1])
  · intro h q hq hpq
    apply h
    rw [← rowRecord_keys sch r]
    exact List.mem_map.mpr ⟨q, hq, by simpa using hpq⟩

theorem selectCols_eq_none_iff (t : Table) (cols : List String) :
    selectCols t cols = none ↔ ¬ ∀ c ∈ cols, c ∈ colNames t := by
  unfold selectCols
  by_cases hc : cols.all (fun c => decide (c ∈ colNames t))
  · rw [if_pos hc]
    constructor
    · intro h; exact Option.noConfusion h
    · intro h
      exact absurd
        (fun c hcm => by simpa using List.all_eq_true.mp hc c hcm) h
  · rw [if_neg hc]
    constructor
    · intro _ hall
      exact hc (List.all_eq_true.mpr (fun c hcm => by simpa using hall c hcm))
    · intro _; rfl

theorem projectProps_filter_cols (rec : List (String × Val))
    (props : List String) (p : String → Bool)
    (h : ∀ k ∈ props, p k = false → assocLookup rec k = none) :
    projectProps rec props = projectProps rec (props.filter p) := by
  unfold projectProps
  suffices hgen : ∀ (props : List String) (acc : List (String × Val)),
      (∀ k ∈ props, p k = false → assocLookup rec k = none) →
      props.foldl (fun acc k =>
        match assocLookup rec k with
        | some v => setKV acc k v
        | none => acc) acc =
      (props.filter p).foldl (fun acc k =>
        match assocLookup rec k with
        | some v => setKV acc k v
        | none => acc) acc by
    exact hgen props [] h
  intro props
  induction props with
  | nil => intro acc _; rfl
  | cons k ks ih =>
    intro acc hks
    by_cases hk : p k
    · rw [List.filter_cons_of_pos hk]
      exact ih _ (fun c hc => hks c (List.mem_cons_of_mem _ hc))
    · rw [List.filter_cons_of_neg (by simpa using hk)]
      have hnone := hks k (List.mem_cons_self _ _) (by simpa using hk)
      simp only [List.foldl_cons, hnone]
      exact ih _ (fun c hc => hks c (List.mem_cons_of_mem _ hc))

/-- Claim C3 (amended): a requested property column absent from the table
is silently omitted in keyed-properties extraction (`get_properties`) and
in well extraction (`get_well_properties`) — filtering the request list to
the table's columns changes nothing — but wellbore extraction
(`get_wellbore_properties`) instead fails (`KeyError`, modelled as `none`)
exactly when any requested column, or the key column, is absent.  The
claim as frozen (all three behave alike) is refuted by the
counterexample. -/
theorem c3_absent_property_columns (t : Table) (items wells wbs : List Val)
    (key : String) (props : List String) :
    get_properties t items key props =
        get_properties t items key
          (props.filter (fun c => decide (c ∈ colNames t))) ∧
      get_well_properties t wells props =
        get_well_properties t wells
          (props.filter (fun c => decide (c ∈ colNames t))) ∧
      (get_wellbore_properties t wbs props = none ↔
        ¬ ∀ c ∈ ("wlbWellboreName" :: props), c ∈ colNames t) := by
  have hcols : ∀ (r : List Val) (k : String),
      decide (k ∈ colNames t) = false →
      assocLookup (rowRecord t.schema r) k = none := by
    intro r k hk
    rw [assocLookup_rowRecord_none]
    have hnot : k ∉ colNames t := of_decide_eq_false hk
    exact hnot
  refine ⟨?_, ?_, ?_⟩
  · unfold get_properties
    apply List.filterMap_congr
    intro item _
    cases firstMatch t key item with
    | none => rfl
    | some r =>
      simp only [Option.map_some']
      unfold bagOfRow
      rw [projectProps_filter_cols _ _ _ (fun k _ => hcols r k)]
  · unfold get_well_properties
    apply List.map_congr_left
    intro r _
    rw [projectProps_filter_cols _ _ _ (fun k _ => hcols r k)]
  · have h1 : get_wellbore_properties t wbs props =
        Option.map (fun sel =>
          let renamed := renameCols sel [("wlbWellboreName", "name")]
          renamed.rows.map (fun r => rowRecord renamed.schema r))
          (selectCols ⟨t.schema, dropDupBy t.schema "wlbWellboreName"
              (t.rows.filter (fun r =>
                decide (getCell t.schema r "wlbWellboreName" ∈ wbs)))⟩
            ("wlbWellboreName" :: props)) := rfl
    rw [h1, Option.map_eq_none', selectCols_eq_none_iff]
    exact Iff.rfl

/-- Counterexample to C3 as frozen: on a table lacking the requested
property column `wlbStatus`, keyed-properties extraction silently omits
the column, but wellbore extraction raises (returns `none`) rather than
omitting it. -/
theorem c3_wellbore_extraction_raises :
    get_wellbore_properties ceWellboreOnlyTable [Val.vStr "WB1"]
        ["wlbStatus"] = none ∧
      get_properties ceWellboreOnlyTable [Val.vStr "WB1"] "wlbWellboreName"
        ["wlbStatus"] = [[("name", Val.vStr "WB1")]] := by
  decide

/-! ### C10 — items with no matching row -/

theorem filterMap_restrict_isSome {α β : Type} (f : α → Option β)
    (l : List α) :
    l.filterMap f = (l.filter (fun a => (f a).isSome)).filterMap f := by
  induction l with
  | nil => rfl
  | cons x xs ih =>
    cases hx : f x with
    | none =>
      rw [List.filter_cons_of_neg (by simp [hx]), List.filterMap_cons_none hx]
      exact ih
    | some b =>
      rw [List.filter_cons_of_pos (by simp [hx]),
        List.filterMap_cons_some hx, List.filterMap_cons_some hx, ih]

theorem filterMap_length_lt {α β : Type} (f : α → Option β) (l : List α)
    (a : α) (ha : a ∈ l) (hn : f a = none) :
    (l.filterMap f).length < l.length := by
  induction l with
  | nil => simp at ha
  | cons x xs ih =>
    rcases List.mem_cons.mp ha with h | h
    · subst h
      rw [List.filterMap_cons_none hn]
      simp only [List.length_cons]
      exact Nat.lt_succ_of_le (List.length_filterMap_le f xs)
    · cases hx : f x with
      | none =>
        rw [List.filterMap_cons_none hx]
        simp only [List.length_cons]
        exact Nat.lt_succ_of_lt (ih h)
      | some b =>
        rw [List.filterMap_cons_some hx]
        simp only [List.length_cons]
        exact Nat.succ_lt_succ (ih h)

/-- Claim C10: an item passed to `get_properties` that matches no row of
the table is silently dropped: no bag is emitted for it (no bag carries
its value under `name`), the output equals the output on the matched
items only, and the output list is strictly shorter than the input
item list.  No error is possible (the function is total). -/
theorem c10_unmatched_items_dropped (t : Table) (items : List Val)
    (key : String) (props : List String) (item : Val)
    (h1 : item ∈ items) (h2 : firstMatch t key item = none) :
    get_properties t items key props =
        get_properties t
          (items.filter (fun it => (firstMatch t key it).isSome)) key props ∧
      (get_properties t items key props).length < items.length ∧
      ∀ b ∈ get_properties t items key props, bagName b ≠ item := by
  refine ⟨?_, ?_, ?_⟩
  · unfold get_properties
    have := filterMap_restrict_isSome
      (fun it => (firstMatch t key it).map (fun r => bagOfRow t.schema props r it))
      items
    rw [this]
    congr 1
    apply List.filter_congr
    intro it _
    cases firstMatch t key it <;> rfl
  · exact filterMap_length_lt _ items item h1 (by rw [h2]; rfl)
  · intro b hb
    rcases List.mem_filterMap.mp hb with ⟨it, hit, hsome⟩
    cases hfm : firstMatch t key it with
    | none => rw [hfm] at hsome; simp at hsome
    | some r =>
      rw [hfm] at hsome
      simp only [Option.map_some', Option.some.injEq] at hsome
      have hbn : bagName b = it := by
        rw [← hsome]
        unfold bagOfRow
        exact bagName_setKV_name _ _
      rw [hbn]
      intro he
      rw [he] at hfm
      rw [h2] at hfm
      exact Option.noConfusion hfm

/-- Witness for C10: the item `zz` has no matching row; the output drops
it and is shorter than the item list. -/
theorem c10_unmatched_items_dropped_witness :
    Val.vStr "zz" ∈ [Val.vStr "zz", Val.vStr "WB1"] ∧
      firstMatch ceWellboreOnlyTable "wlbWellboreName" (Val.vStr "zz") = none ∧
      (get_properties ceWellboreOnlyTable [Val.vStr "zz", Val.vStr "WB1"]
          "wlbWellboreName" []).length < 2 := by
  refine ⟨by decide, by decide, ?_⟩
  exact (c10_unmatched_items_dropped ceWellboreOnlyTable
    [Val.vStr "zz", Val.vStr "WB1"] "wlbWellboreName" [] (Val.vStr "zz")
    (by decide) (by decide)).2.1

/-! ### C7 — exactly one property bag per distinct identity -/

theorem pandasEqB_refl (v : Val) (h : v ≠ Val.vNull) : pandasEqB v v = true := by
  cases v with
  | vStr s => simp [pandasEqB]
  | vNum n => simp [pandasEqB]
  | vNull => exact absurd rfl h

theorem filterMap_eq_map_of_some {α β : Type} (f : α → Option β) (g : α → β)
    (l : List α) (h : ∀ a ∈ l, f a = some (g a)) : l.filterMap f = l.map g := by
  induction l with
  | nil => rfl
  | cons x xs ih =>
    rw [List.filterMap_cons_some (h x (List.mem_cons_self _ _)), List.map_cons]
    rw [ih (fun a ha => h a (List.mem_cons_of_mem _ ha))]

theorem unique_non_missing_has_match (t : Table) (key : String)
    (hnn : ∀ v ∈ getCol t key, v ≠ Val.vNull) :
    ∀ v ∈ unique_non_missing (getCol t key),
      ∃ r, firstMatch t key v = some r := by
  intro v hv
  rw [unique_non_missing, mem_firstDedup_iff] at hv
  rcases List.mem_filter.mp hv with ⟨hmem, _⟩
  rcases List.mem_map.mp hmem with ⟨r0, hr0, hcell⟩
  have hsome : (firstMatch t key v).isSome = true := by
    rw [firstMatch, List.find?_isSome]
    exact ⟨r0, hr0, by rw [hcell]; exact pandasEqB_refl v (hnn v hmem)⟩
  exact Option.isSome_iff_exists.mp hsome

theorem dropDup_keys (sch : List (String × CT)) (key : String) :
    ∀ (rows : List (List Val)) (seen : List Val),
      (dropDupByAux sch key seen rows).map (fun r => getCell sch r key) =
        firstDedupAux seen (rows.map (fun r => getCell sch r key)) := by
  intro rows
  induction rows with
  | nil => intro seen; rfl
  | cons r rest ih =>
    intro seen
    unfold dropDupByAux
    rw [List.map_cons]
    unfold firstDedupAux
    by_cases hc : getCell sch r key ∈ seen
    · rw [if_pos hc, if_pos hc, ih seen]
    · rw [if_neg hc, if_neg hc, List.map_cons, ih _]

theorem dropDup_subset (sch : List (String × CT)) (key : String) :
    ∀ (rows seen : _) (r : List Val),
      r ∈ dropDupByAux sch key seen rows → r ∈ rows := by
  intro rows
  induction rows with
  | nil => intro seen r h; exact absurd h (by simp [dropDupByAux])
  | cons x rest ih =>
    intro seen r h
    unfold dropDupByAux at h
    by_cases hc : getCell sch x key ∈ seen
    · rw [if_pos hc] at h
      exact List.mem_cons_of_mem _ (ih seen r h)
    · rw [if_neg hc] at h
      rcases List.mem_cons.mp h with h1 | h1
      · exact h1 ▸ List.mem_cons_self _ _
      · exact List.mem_cons_of_mem _ (ih _ r h1)

theorem dropDup_first (sch : List (String × CT)) (key : String) :
    ∀ (rows seen : _) (r' : List Val), r' ∈ dropDupByAux sch key seen rows →
      rows.find? (fun r => decide (getCell sch r key = getCell sch r' key))
          = some r' ∧ getCell sch r' key ∉ seen := by
  intro rows
  induction rows with
  | nil => intro seen r' h; exact absurd h (by simp [dropDupByAux])
  | cons x rest ih =>
    intro seen r' h
    unfold dropDupByAux at h
    by_cases hc : getCell sch x key ∈ seen
    · rw [if_pos hc] at h
      rcases ih seen r' h with ⟨hfind, hns⟩
      have hne : ¬ getCell sch x key = getCell sch r' key := by
        intro he; rw [he] at hc; exact hns hc
      rw [List.find?_cons_of_neg _ (by simpa using hne)]
      exact ⟨hfind, hns⟩
    · rw [if_neg hc] at h
      rcases List.mem_cons.mp h with h1 | h1
      · subst h1
        exact ⟨List.find?_cons_of_pos _ (by simp), hc⟩
      · rcases ih _ r' h1 with ⟨hfind, hns⟩
        have hne : ¬ getCell sch x key = getCell sch r' key := by
          intro he
          exact hns (he ▸ List.mem_cons_self _ _)
        rw [List.find?_cons_of_neg _ (by simpa using hne)]
        refine ⟨hfind, fun hmem => hns (List.mem_cons_of_mem _ hmem)⟩

theorem find?_filter_lift {α : Type} (p q : α → Bool) (l : List α) (a : α)
    (himp : ∀ x, p x = true → q x = true)
    (h : (l.filter q).find? p = some a) : l.find? p = some a := by
  induction l with
  | nil => simp [List.filter] at h
  | cons x xs ih =>
    by_cases hq : q x
    · rw [List.filter_cons_of_pos hq] at h
      by_cases hp : p x
      · rw [List.find?_cons_of_pos _ hp] at h
        rw [List.find?_cons_of_pos _ hp]
        exact h
      · rw [List.find?_cons_of_neg _ (by simpa using hp)] at h
        rw [List.find?_cons_of_neg _ (by simpa using hp)]
        exact ih h
    · rw [List.filter_cons_of_neg (by simpa using hq)] at h
      have hp : ¬ p x = true := fun hpx => hq (himp x hpx)
      rw [List.find?_cons_of_neg _ (by simpa using hp)]
      exact ih h

theorem map_filter_getCell (sch : List (String × CT)) (key : String)
    (vs : List Val) (rows : List (List Val)) :
    (rows.filter (fun r => decide (getCell sch r key ∈ vs))).map
        (fun r => getCell sch r key) =
      (rows.map (fun r => getCell sch r key)).filter
        (fun v => decide (v ∈ vs)) := by
  induction rows with
  | nil => rfl
  | cons r rest ih =>
    simp only [List.map_cons, List.filter_cons]
    by_cases hp : getCell sch r key ∈ vs
    · simp only [decide_eq_true hp, if_pos, List.map_cons, ih]
    · simp only [decide_eq_false hp, Bool.false_eq_true, if_false, ih]

/-- Claim C7: for a cleaned table (no nulls in the identity columns) and
the identity list collected by `unique_non_missing`, both keyed-properties
extraction (`get_properties`, used for licenses and fields) and
deduplicated-entity extraction (`get_well_properties`, used for wells)
emit exactly one property bag per distinct non-sentinel identity — in
identity order, with no duplicates and none dropped — each bag built from
the first matching row in row order and carrying the identity under
`name`. -/
theorem c7_one_bag_per_identity (t : Table) (key : String)
    (props wprops : List String)
    (hkey : ∀ v ∈ getCol t key, v ≠ Val.vNull)
    (hwell : ∀ v ∈ getCol t "wlbWell", v ≠ Val.vNull) :
    (unique_non_missing (getCol t key)).Nodup ∧
      (get_properties t (unique_non_missing (getCol t key)) key props).map
          (fun b => bagName b) = unique_non_missing (getCol t key) ∧
      (∀ b ∈ get_properties t (unique_non_missing (getCol t key)) key props,
        ∃ v r, v ∈ unique_non_missing (getCol t key) ∧
          firstMatch t key v = some r ∧ b = bagOfRow t.schema props r v) ∧
      (unique_non_missing (getCol t "wlbWell")).Nodup ∧
      (get_well_properties t (unique_non_missing (getCol t "wlbWell"))
          wprops).map (fun b => bagName b) =
        unique_non_missing (getCol t "wlbWell") ∧
      (∀ b ∈ get_well_properties t (unique_non_missing (getCol t "wlbWell"))
          wprops,
        ∃ v r, v ∈ unique_non_missing (getCol t "wlbWell") ∧
          t.rows.find? (fun rr => decide (getCell t.schema rr "wlbWell" = v))
              = some r ∧
          b = setKV (projectProps (rowRecord t.schema r) wprops) "name" v) := by
  have hids := unique_non_missing_has_match t key hkey
  refine ⟨firstDedup_nodup _, ?_, ?_, firstDedup_nodup _, ?_, ?_⟩
  · unfold get_properties
    rw [filterMap_eq_map_of_some _
      (fun v => bagOfRow t.schema props ((firstMatch t key v).getD []) v) _
      (by
        intro v hv
        rcases hids v hv with ⟨r, hr⟩
        show (firstMatch t key v).map (fun r => bagOfRow t.schema props r v)
            = some (bagOfRow t.schema props ((firstMatch t key v).getD []) v)
        rw [hr]
        rfl)]
    rw [List.map_map]
    have : ∀ v ∈ unique_non_missing (getCol t key),
        ((fun b => bagName b) ∘
          (fun v => bagOfRow t.schema props ((firstMatch t key v).getD []) v)) v
          = v := by
      intro v _
      exact bagName_setKV_name _ _
    rw [List.map_congr_left this]
    exact List.map_id _
  · intro b hb
    rcases List.mem_filterMap.mp hb with ⟨v, hv, hsome⟩
    cases hfm : firstMatch t key v with
    | none => rw [hfm] at hsome; exact absurd hsome (by simp)
    | some r =>
      rw [hfm] at hsome
      simp only [Option.map_some', Option.some.injEq] at hsome
      exact ⟨v, r, hv, hfm, hsome.symm⟩
  · unfold get_well_properties
    rw [List.map_map]
    have hpt : ∀ r ∈ dropDupBy t.schema "wlbWell"
        (t.rows.filter (fun r =>
          decide (getCell t.schema r "wlbWell"
            ∈ unique_non_missing (getCol t "wlbWell")))),
        ((fun b => bagName b) ∘ (fun r =>
          setKV (projectProps (rowRecord t.schema r) wprops) "name"
            (getCell t.schema r "wlbWell"))) r
          = getCell t.schema r "wlbWell" := by
      intro r _
      exact bagName_setKV_name _ _
    rw [List.map_congr_left hpt]
    unfold dropDupBy
    rw [dropDup_keys, map_filter_getCell]
    have hfc : (getCol t "wlbWell").filter (fun v =>
          decide (v ∈ unique_non_missing (getCol t "wlbWell"))) =
        (getCol t "wlbWell").filter (fun v =>
          decide (v ≠ Val.vStr MISSING_VALUE)) := by
      apply List.filter_congr
      intro v hv
      rw [decide_eq_decide]
      constructor
      · intro hmem
        rw [unique_non_missing, mem_firstDedup_iff] at hmem
        exact of_decide_eq_true (List.mem_filter.mp hmem).2
      · intro hne
        rw [unique_non_missing, mem_firstDedup_iff]
        exact List.mem_filter.mpr ⟨hv, decide_eq_true hne⟩
    show firstDedupAux [] ((getCol t "wlbWell").filter _) = _
    rw [hfc]
    rfl
  · intro b hb
    rcases List.mem_map.mp hb with ⟨r, hr, hbag⟩
    have hmemf := dropDup_subset t.schema "wlbWell" _ [] r hr
    have hvin : decide (getCell t.schema r "wlbWell"
        ∈ unique_non_missing (getCol t "wlbWell")) = true :=
      (List.mem_filter.mp hmemf).2
    refine ⟨getCell t.schema r "wlbWell", r, of_decide_eq_true hvin, ?_,
      hbag.symm⟩
    have hfirst := (dropDup_first t.schema "wlbWell" _ [] r hr).1
    apply find?_filter_lift _ _ _ _ _ hfirst
    intro x hx
    have hx' : getCell t.schema x "wlbWell" = getCell t.schema r "wlbWell" :=
      of_decide_eq_true hx
    rw [hx']
    exact hvin

/-- A small cleaned table for the C7 witness: well W1 occurs twice with
different property values, the sentinel-valued row is excluded, W2 occurs
once. -/
def c7Table : Table :=
  ⟨[("wlbWell", CT.s), ("p", CT.s)],
   [[Val.vStr "W1", Val.vStr "1"], [Val.vStr "W1", Val.vStr "2"],
    [Val.vStr "", Val.vStr "3"], [Val.vStr "W2", Val.vStr "4"]]⟩

/-- Witness for C7 at `c7Table`: per distinct identity one bag, in order,
none for the sentinel. -/
theorem c7_one_bag_per_identity_witness :
    (∀ v ∈ getCol c7Table "wlbWell", v ≠ Val.vNull) ∧
      (get_properties c7Table (unique_non_missing (getCol c7Table "wlbWell"))
          "wlbWell" ["p"]).map (fun b => bagName b) =
        [Val.vStr "W1", Val.vStr "W2"] := by
  refine ⟨by decide, ?_⟩
  have h := (c7_one_bag_per_identity c7Table "wlbWell" ["p"] ["p"]
    (by decide) (by decide)).2.1
  rw [h]
  decide

/-! ### C6 — idempotence of the upsert operations -/

/-- Value of the last occurrence of key `k` in a bag (`SET n += props`
applies entries left to right, so the last write wins). -/
def lastVal (b : List (String × Val)) (k : String) : Option Val :=
  (b.reverse.find? (fun p => decide (p.1 = k))).map (fun p => p.2)

/-- Property lookup on the first node with a given identity. -/
def lookupProp (g : Graph) (id : String × Val) (k : String) : Option Val :=
  (g.nodes.find? (fun p => decide (p.1 = id))).bind (fun p => assocLookup p.2 k)

theorem or_some_left {α : Type} (a : α) (x : Option α) :
    (some a).or x = some a := rfl

theorem lastVal_cons (a : String) (w : Val) (t : List (String × Val))
    (k : String) :
    lastVal ((a, w) :: t) k =
      (lastVal t k).or (if a = k then some w else none) := by
  unfold lastVal
  rw [List.reverse_cons, List.find?_append]
  cases hf : t.reverse.find? (fun p => decide (p.1 = k)) with
  | some p => rw [or_some_left, Option.map_some', or_some_left]
  | none =>
    rw [Option.none_or, Option.map_none', Option.none_or]
    by_cases ha : a = k
    · rw [if_pos ha, List.find?_cons_of_pos _ (by simpa using ha)]
      rfl
    · rw [if_neg ha, List.find?_cons_of_neg _ (by simpa using ha)]
      rfl

theorem lastVal_append (b c : List (String × Val)) (k : String) :
    lastVal (b ++ c) k = (lastVal c k).or (lastVal b k) := by
  unfold lastVal
  rw [List.reverse_append, List.find?_append]
  cases hf : c.reverse.find? (fun p => decide (p.1 = k)) with
  | some p => rw [or_some_left, Option.map_some', or_some_left]
  | none => rw [Option.none_or, Option.map_none', Option.none_or]

theorem assocLookup_applyBag (m b : List (String × Val)) (k : String) :
    assocLookup (applyBag m b) k = (lastVal b k).or (assocLookup m k) := by
  induction b generalizing m with
  | nil => rfl
  | cons p t ih =>
    rcases p with ⟨a, w⟩
    show assocLookup (applyBag (setKV m a w) t) k = _
    rw [ih, lastVal_cons]
    by_cases ha : a = k
    · subst ha
      rw [assocLookup_setKV_self, if_pos rfl, Option.or_assoc, or_some_left]
    · rw [assocLookup_setKV_other m a w k (fun hh => ha hh.symm), if_neg ha,
        Option.or_none]

theorem ids_setProps (g : Graph) (id : String × Val)
    (b : List (String × Val)) : (setProps g id b).ids = g.ids := by
  unfold setProps Graph.ids
  rw [List.map_map]
  apply List.map_congr_left
  intro p _
  by_cases hp : p.1 = id
  · simp [hp]
  · simp [hp]

theorem ids_mergeNode (g : Graph) (id : String × Val) :
    (mergeNode g id).ids = if id ∈ g.ids then g.ids else g.ids ++ [id] := by
  unfold mergeNode
  by_cases h : id ∈ g.ids
  · rw [if_pos h, if_pos h]
  · rw [if_neg h, if_neg h]
    unfold Graph.ids
    rw [List.map_append]
    rfl

theorem edges_setProps (g : Graph) (id : String × Val)
    (b : List (String × Val)) : (setProps g id b).edges = g.edges := rfl

theorem edges_mergeNode (g : Graph) (id : String × Val) :
    (mergeNode g id).edges = g.edges := by
  unfold mergeNode
  by_cases h : id ∈ g.ids
  · rw [if_pos h]
  · rw [if_neg h]

theorem mem_ids_iff_find? (g : Graph) (id : String × Val) :
    id ∈ g.ids ↔
      (g.nodes.find? (fun p => decide (p.1 = id))).isSome = true := by
  rw [List.find?_isSome]
  unfold Graph.ids
  constructor
  · intro h
    rcases List.mem_map.mp h with ⟨p, hp, hp1⟩
    exact ⟨p, hp, by simp [hp1]⟩
  · rintro ⟨p, hp, hpe⟩
    exact List.mem_map.mpr ⟨p, hp, by simpa using hpe⟩

theorem find?_setProps_nodes (g : Graph) (id : String × Val)
    (b : List (String × Val)) (id2 : String × Val) :
    (setProps g id b).nodes.find? (fun p => decide (p.1 = id2)) =
      (g.nodes.find? (fun p => decide (p.1 = id2))).map
        (fun p => if p.1 = id then (p.1, applyBag p.2 b) else p) := by
  unfold setProps
  rw [List.find?_map]
  have hpred : ((fun p : (String × Val) × List (String × Val) =>
        decide (p.1 = id2)) ∘
      (fun p => if p.1 = id then (p.1, applyBag p.2 b) else p)) =
      (fun p : (String × Val) × List (String × Val) =>
        decide (p.1 = id2)) := by
    funext p
    by_cases hp : p.1 = id
    · simp [Function.comp, hp]
    · simp [Function.comp, hp]
  rw [hpred]

/-- The effect of one bag upsert (`MERGE` + `SET n += props`) on property
lookups: the merged identity's bag entries shadow the prior state, whose
base is the prior node when present and the bare `name`-only node
otherwise; other identities are untouched. -/
theorem lookupProp_upsertBag (g : Graph) (id : String × Val)
    (b : List (String × Val)) (id2 : String × Val) (k : String) :
    lookupProp (setProps (mergeNode g id) id b) id2 k =
      if id2 = id then
        (lastVal b k).or
          (if id ∈ g.ids then lookupProp g id k
           else (if k = "name" then some id.2 else none))
      else lookupProp g id2 k := by
  by_cases hmem : id ∈ g.ids
  · have hg : mergeNode g id = g := by unfold mergeNode; rw [if_pos hmem]
    rw [hg, if_pos hmem]
    unfold lookupProp
    rw [find?_setProps_nodes]
    cases hf : g.nodes.find? (fun p => decide (p.1 = id2)) with
    | none =>
      rw [Option.map_none', Option.none_bind]
      by_cases hid : id2 = id
      · subst hid
        rw [mem_ids_iff_find?, hf] at hmem
        exact absurd hmem (by simp)
      · rw [if_neg hid]
    | some p =>
      have hp1 : p.1 = id2 := by simpa using List.find?_some hf
      rw [Option.map_some', Option.some_bind, Option.some_bind]
      by_cases hid : id2 = id
      · rw [if_pos (hp1.trans hid), if_pos hid, assocLookup_applyBag]
        subst hid
        rw [hf, Option.some_bind]
      · rw [if_neg (by rw [hp1]; exact hid), if_neg hid]
  · have hg : mergeNode g id =
        ⟨g.nodes ++ [(id, [("name", id.2)])], g.edges⟩ := by
      unfold mergeNode; rw [if_neg hmem]
    rw [hg, if_neg hmem]
    unfold lookupProp
    rw [find?_setProps_nodes]
    dsimp only
    rw [List.find?_append]
    by_cases hid : id2 = id
    · subst hid
      have hnone : g.nodes.find? (fun p => decide (p.1 = id2)) = none := by
        rw [List.find?_eq_none]
        intro p hp hpe
        apply hmem
        rw [mem_ids_iff_find?, List.find?_isSome]
        exact ⟨p, hp, hpe⟩
      rw [hnone, Option.none_or, List.find?_cons_of_pos _ (by simp),
        Option.map_some', Option.some_bind, if_pos rfl, if_pos rfl,
        assocLookup_applyBag]
      congr 1
      unfold assocLookup
      by_cases hk : k = "name"
      · rw [if_pos hk, List.find?_cons_of_pos _ (by simp [hk])]
        rfl
      · rw [if_neg hk,
          List.find?_cons_of_neg _ (by simpa using fun hh => hk hh.symm)]
        rfl
    · have hone : List.find? (fun p => decide (p.1 = id2))
          [(id, [("name", id.2)])] = none := by
        rw [List.find?_eq_none]
        intro p hp
        rcases List.mem_singleton.mp hp with rfl
        simpa using fun hh => hid hh.symm
      rw [hone, Option.or_none, if_neg hid]
      cases hf : g.nodes.find? (fun p => decide (p.1 = id2)) with
      | none => rfl
      | some p =>
        have hp1 : p.1 = id2 := by simpa using List.find?_some hf
        rw [Option.map_some', Option.some_bind, Option.some_bind,
          if_neg (by rw [hp1]; exact hid)]

/-- The `props.name` identities of a bag batch. -/
def bagNames (bags : List (List (String × Val))) : List Val :=
  bags.map bagName

/-- The concatenation, in batch order, of all bags whose `name` is `nm`. -/
def bagsFor (nm : Val) (bags : List (List (String × Val))) :
    List (String × Val) :=
  (bags.filter (fun b => decide (bagName b = nm))).flatten

theorem ids_upsertBag (g : Graph) (label : String)
    (b : List (String × Val)) :
    (setProps (mergeNode g (label, bagName b)) (label, bagName b) b).ids =
      if (label, bagName b) ∈ g.ids then g.ids
      else g.ids ++ [(label, bagName b)] := by
  rw [ids_setProps, ids_mergeNode]

theorem self_mem_ids_upsertBag (g : Graph) (label : String)
    (b : List (String × Val)) :
    (label, bagName b) ∈
      (setProps (mergeNode g (label, bagName b)) (label, bagName b) b).ids := by
  rw [ids_upsertBag]
  by_cases h : (label, bagName b) ∈ g.ids
  · rw [if_pos h]; exact h
  · rw [if_neg h]; exact List.mem_append_right _ (List.mem_singleton.mpr rfl)

theorem mem_ids_upsertBag_of_mem (g : Graph) (label : String)
    (b : List (String × Val)) (id : String × Val) (h : id ∈ g.ids) :
    id ∈ (setProps (mergeNode g (label, bagName b))
      (label, bagName b) b).ids := by
  rw [ids_upsertBag]
  by_cases hm : (label, bagName b) ∈ g.ids
  · rw [if_pos hm]; exact h
  · rw [if_neg hm]; exact List.mem_append_left _ h

theorem mem_ids_upsertBag_iff (g : Graph) (label : String)
    (b : List (String × Val)) (id : String × Val)
    (hne : id ≠ (label, bagName b)) :
    (id ∈ (setProps (mergeNode g (label, bagName b))
        (label, bagName b) b).ids) ↔ id ∈ g.ids := by
  rw [ids_upsertBag]
  by_cases hm : (label, bagName b) ∈ g.ids
  · rw [if_pos hm]
  · rw [if_neg hm, List.mem_append, List.mem_singleton]
    constructor
    · rintro (h | h)
      · exact h
      · exact absurd h hne
    · exact fun h => Or.inl h

theorem cnwp_cons (g : Graph) (label : String) (b : List (String × Val))
    (bs : List (List (String × Val))) :
    create_nodes_with_props g label (b :: bs) =
      create_nodes_with_props
        (setProps (mergeNode g (label, bagName b)) (label, bagName b) b)
        label bs := rfl

theorem ids_cnwp_mono (label : String) :
    ∀ (bags : List (List (String × Val))) (g : Graph) (id : String × Val),
      id ∈ g.ids → id ∈ (create_nodes_with_props g label bags).ids := by
  intro bags
  induction bags with
  | nil => intro g id h; exact h
  | cons b bs ih =>
    intro g id h
    rw [cnwp_cons]
    exact ih _ id (mem_ids_upsertBag_of_mem g label b id h)

theorem ids_cnwp_self (label : String) :
    ∀ (bags : List (List (String × Val))) (g : Graph)
      (b : List (String × Val)), b ∈ bags →
      (label, bagName b) ∈ (create_nodes_with_props g label bags).ids := by
  intro bags
  induction bags with
  | nil => intro g b h; exact absurd h (List.not_mem_nil _)
  | cons b0 bs ih =>
    intro g b h
    rw [cnwp_cons]
    rcases List.mem_cons.mp h with h1 | h1
    · subst h1
      exact ids_cnwp_mono label bs _ _ (self_mem_ids_upsertBag g label b)
    · exact ih _ b h1

theorem ids_cnwp_eq (label : String) :
    ∀ (bags : List (List (String × Val))) (g : Graph),
      (∀ b ∈ bags, (label, bagName b) ∈ g.ids) →
      (create_nodes_with_props g label bags).ids = g.ids := by
  intro bags
  induction bags with
  | nil => intro g _; rfl
  | cons b bs ih =>
    intro g h
    rw [cnwp_cons]
    have hids : (setProps (mergeNode g (label, bagName b))
        (label, bagName b) b).ids = g.ids := by
      rw [ids_upsertBag, if_pos (h b (List.mem_cons_self _ _))]
    rw [ih _ (fun b' hb' => by
      rw [hids]
      exact h b' (List.mem_cons_of_mem _ hb')), hids]

theorem edges_cnwp (label : String) :
    ∀ (bags : List (List (String × Val))) (g : Graph),
      (create_nodes_with_props g label bags).edges = g.edges := by
  intro bags
  induction bags with
  | nil => intro g; rfl
  | cons b bs ih =>
    intro g
    rw [cnwp_cons, ih, edges_setProps, edges_mergeNode]

theorem bagsFor_eq_nil (nm : Val) (bs : List (List (String × Val)))
    (h : nm ∉ bagNames bs) : bagsFor nm bs = [] := by
  unfold bagsFor
  rw [List.filter_eq_nil_iff.mpr]
  · rfl
  · intro b hb
    simp only [decide_eq_true_eq]
    intro he
    exact h (List.mem_map.mpr ⟨b, hb, he⟩)

/-- Closed form for property lookups after `create_nodes_with_props`: an
identity named by the batch reads the last-written value among its bags,
falling back to the prior state (or the bare merged node); identities not
named by the batch are untouched. -/
theorem lookupProp_cnwp (label : String) :
    ∀ (bags : List (List (String × Val))) (g : Graph) (id : String × Val)
      (k : String),
      lookupProp (create_nodes_with_props g label bags) id k =
        if id.1 = label ∧ id.2 ∈ bagNames bags then
          (lastVal (bagsFor id.2 bags) k).or
            (if id ∈ g.ids then lookupProp g id k
             else (if k = "name" then some id.2 else none))
        else lookupProp g id k := by
  intro bags
  induction bags with
  | nil =>
    intro g id k
    rw [if_neg (by simp [bagNames])]
    rfl
  | cons b bs ih =>
    intro g id k
    rw [cnwp_cons, ih]
    by_cases hl : id.1 = label
    · by_cases hb : id.2 = bagName b
      · have hid : id = (label, bagName b) := Prod.ext_iff.mpr ⟨hl, hb⟩
        subst hid
        dsimp only at *
        have hmemhd : bagName b ∈ bagNames (b :: bs) := by
          rw [bagNames, List.map_cons]
          exact List.mem_cons_self _ _
        have hCfor : bagsFor (bagName b) (b :: bs) =
            b ++ bagsFor (bagName b) bs := by
          unfold bagsFor
          rw [List.filter_cons_of_pos (by simp)]
          rfl
        have hstep : lookupProp
            (setProps (mergeNode g (label, bagName b)) (label, bagName b) b)
            (label, bagName b) k =
            (lastVal b k).or
              (if (label, bagName b) ∈ g.ids then
                lookupProp g (label, bagName b) k
               else (if k = "name" then some (bagName b) else none)) := by
          rw [lookupProp_upsertBag, if_pos rfl]
        by_cases hmem2 : bagName b ∈ bagNames bs
        · rw [if_pos (show label = label ∧ bagName b ∈ bagNames bs from
              ⟨rfl, hmem2⟩),
            if_pos (self_mem_ids_upsertBag g label b), hstep,
            if_pos (show label = label ∧ bagName b ∈ bagNames (b :: bs) from
              ⟨rfl, hmemhd⟩), hCfor, lastVal_append, Option.or_assoc]
        · rw [if_neg (show ¬ (label = label ∧ bagName b ∈ bagNames bs) from
              fun hc => hmem2 hc.2), hstep,
            if_pos (show label = label ∧ bagName b ∈ bagNames (b :: bs) from
              ⟨rfl, hmemhd⟩), hCfor, bagsFor_eq_nil _ _ hmem2,
            List.append_nil]
      · have hne : id ≠ (label, bagName b) := by
          intro he
          exact hb (by rw [he])
        have hCfor : bagsFor id.2 (b :: bs) = bagsFor id.2 bs := by
          unfold bagsFor
          rw [List.filter_cons_of_neg
            (by simpa using fun hh => hb hh.symm)]
        have hmemhd : (id.2 ∈ bagNames (b :: bs)) ↔ id.2 ∈ bagNames bs := by
          rw [bagNames, List.map_cons, List.mem_cons]
          constructor
          · rintro (h | h)
            · exact absurd h hb
            · exact h
          · exact fun h => Or.inr h
        have hstep : lookupProp
            (setProps (mergeNode g (label, bagName b)) (label, bagName b) b)
            id k = lookupProp g id k := by
          rw [lookupProp_upsertBag, if_neg hne]
        by_cases hmem2 : id.2 ∈ bagNames bs
        · rw [if_pos (show id.1 = label ∧ id.2 ∈ bagNames bs from
              ⟨hl, hmem2⟩), hstep,
            if_pos (show id.1 = label ∧ id.2 ∈ bagNames (b :: bs) from
              ⟨hl, hmemhd.mpr hmem2⟩), hCfor]
          by_cases hgm : id ∈ g.ids
          · rw [if_pos ((mem_ids_upsertBag_iff g label b id hne).mpr hgm),
              if_pos hgm]
          · rw [if_neg (fun hc =>
              hgm ((mem_ids_upsertBag_iff g label b id hne).mp hc)),
              if_neg hgm]
        · rw [if_neg (show ¬ (id.1 = label ∧ id.2 ∈ bagNames bs) from
              fun hc => hmem2 hc.2),
            if_neg (show ¬ (id.1 = label ∧ id.2 ∈ bagNames (b :: bs)) from
              fun hc => hmem2 (hmemhd.mp hc.2)), hstep]
    · rw [if_neg (show ¬ (id.1 = label ∧ id.2 ∈ bagNames bs) from
          fun hc => hl hc.1),
        if_neg (show ¬ (id.1 = label ∧ id.2 ∈ bagNames (b :: bs)) from
          fun hc => hl hc.1),
        lookupProp_upsertBag,
        if_neg (show id ≠ (label, bagName b) from
          fun he => hl (by rw [he]))]

theorem ids_addEdgeG (g : Graph) (e : Edge) : (addEdgeG g e).ids = g.ids := by
  unfold addEdgeG
  by_cases h : e ∈ g.edges
  · rw [if_pos h]
  · rw [if_neg h]
    rfl

theorem edges_addEdgeG_mem (g : Graph) (e : Edge) :
    e ∈ (addEdgeG g e).edges := by
  unfold addEdgeG
  by_cases h : e ∈ g.edges
  · rw [if_pos h]; exact h
  · rw [if_neg h]
    exact List.mem_append_right _ (List.mem_singleton.mpr rfl)

theorem edges_addEdgeG_mono (g : Graph) (e e' : Edge) (h : e' ∈ g.edges) :
    e' ∈ (addEdgeG g e).edges := by
  unfold addEdgeG
  by_cases hm : e ∈ g.edges
  · rw [if_pos hm]; exact h
  · rw [if_neg hm]
    exact List.mem_append_left _ h

theorem mem_ids_mergeNode_self (g : Graph) (id : String × Val) :
    id ∈ (mergeNode g id).ids := by
  rw [ids_mergeNode]
  by_cases h : id ∈ g.ids
  · rw [if_pos h]; exact h
  · rw [if_neg h]
    exact List.mem_append_right _ (List.mem_singleton.mpr rfl)

theorem mem_ids_mergeNode_mono (g : Graph) (id id' : String × Val)
    (h : id' ∈ g.ids) : id' ∈ (mergeNode g id).ids := by
  rw [ids_mergeNode]
  by_cases hm : id ∈ g.ids
  · rw [if_pos hm]; exact h
  · rw [if_neg hm]
    exact List.mem_append_left _ h

theorem upsertEdge_id_mono (g : Graph) (e : Edge) (id : String × Val)
    (h : id ∈ g.ids) : id ∈ (upsertEdge g e).ids := by
  unfold upsertEdge
  rw [ids_addEdgeG]
  exact mem_ids_mergeNode_mono _ _ _ (mem_ids_mergeNode_mono _ _ _ h)

theorem upsertEdge_edge_mono (g : Graph) (e e' : Edge) (h : e' ∈ g.edges) :
    e' ∈ (upsertEdge g e).edges := by
  unfold upsertEdge
  apply edges_addEdgeG_mono
  rw [edges_mergeNode, edges_mergeNode]
  exact h

theorem upsertEdge_self (g : Graph) (e : Edge) :
    e.1 ∈ (upsertEdge g e).ids ∧ e.2.1 ∈ (upsertEdge g e).ids ∧
      e ∈ (upsertEdge g e).edges := by
  unfold upsertEdge
  refine ⟨?_, ?_, edges_addEdgeG_mem _ _⟩
  · rw [ids_addEdgeG]
    exact mem_ids_mergeNode_mono _ _ _ (mem_ids_mergeNode_self _ _)
  · rw [ids_addEdgeG]
    exact mem_ids_mergeNode_self _ _

theorem edgeBatch_cons (g : Graph) (e : Edge) (l : List Edge) :
    edgeBatch g (e :: l) = edgeBatch (upsertEdge g e) l := rfl

theorem edgeBatch_id_mono (l : List Edge) :
    ∀ (g : Graph) (id : String × Val), id ∈ g.ids →
      id ∈ (edgeBatch g l).ids := by
  induction l with
  | nil => intro g id h; exact h
  | cons e l ih =>
    intro g id h
    rw [edgeBatch_cons]
    exact ih _ id (upsertEdge_id_mono g e id h)

theorem edgeBatch_edge_mono (l : List Edge) :
    ∀ (g : Graph) (e' : Edge), e' ∈ g.edges →
      e' ∈ (edgeBatch g l).edges := by
  induction l with
  | nil => intro g e' h; exact h
  | cons e l ih =>
    intro g e' h
    rw [edgeBatch_cons]
    exact ih _ e' (upsertEdge_edge_mono g e e' h)

theorem edgeBatch_all (l : List Edge) :
    ∀ (g : Graph) (e : Edge), e ∈ l →
      e.1 ∈ (edgeBatch g l).ids ∧ e.2.1 ∈ (edgeBatch g l).ids ∧
        e ∈ (edgeBatch g l).edges := by
  induction l with
  | nil => intro g e h; exact absurd h (List.not_mem_nil _)
  | cons e0 l ih =>
    intro g e h
    rw [edgeBatch_cons]
    rcases List.mem_cons.mp h with h1 | h1
    · subst h1
      rcases upsertEdge_self g e with ⟨h1, h2, h3⟩
      exact ⟨edgeBatch_id_mono l _ _ h1, edgeBatch_id_mono l _ _ h2,
        edgeBatch_edge_mono l _ _ h3⟩
    · exact ih _ e h1

theorem upsertEdge_fix (g : Graph) (e : Edge) (h1 : e.1 ∈ g.ids)
    (h2 : e.2.1 ∈ g.ids) (h3 : e ∈ g.edges) : upsertEdge g e = g := by
  unfold upsertEdge
  have hm1 : mergeNode g e.1 = g := by unfold mergeNode; rw [if_pos h1]
  have hm2 : mergeNode g e.2.1 = g := by unfold mergeNode; rw [if_pos h2]
  rw [hm1, hm2]
  unfold addEdgeG
  rw [if_pos h3]

theorem edgeBatch_fix (l : List Edge) :
    ∀ (g : Graph),
      (∀ e ∈ l, e.1 ∈ g.ids ∧ e.2.1 ∈ g.ids ∧ e ∈ g.edges) →
      edgeBatch g l = g := by
  induction l with
  | nil => intro g _; rfl
  | cons e l ih =>
    intro g h
    rcases h e (List.mem_cons_self _ _) with ⟨h1, h2, h3⟩
    rw [edgeBatch_cons, upsertEdge_fix g e h1 h2 h3]
    exact ih g (fun e' he' => h e' (List.mem_cons_of_mem _ he'))

theorem edgeBatch_idem (g : Graph) (l : List Edge) :
    edgeBatch (edgeBatch g l) l = edgeBatch g l :=
  edgeBatch_fix l (edgeBatch g l) (fun e he => edgeBatch_all l g e he)

theorem nodup_edges_addEdgeG (g : Graph) (e : Edge)
    (h : g.edges.Nodup) : (addEdgeG g e).edges.Nodup := by
  unfold addEdgeG
  by_cases hm : e ∈ g.edges
  · rw [if_pos hm]; exact h
  · rw [if_neg hm]
    show (g.edges ++ [e]).Nodup
    rw [List.nodup_append]
    exact ⟨h, List.nodup_singleton e, List.disjoint_singleton.mpr hm⟩

theorem nodup_edges_upsertEdge (g : Graph) (e : Edge)
    (h : g.edges.Nodup) : (upsertEdge g e).edges.Nodup := by
  unfold upsertEdge
  apply nodup_edges_addEdgeG
  rw [edges_mergeNode, edges_mergeNode]
  exact h

theorem nodup_edges_edgeBatch (l : List Edge) :
    ∀ (g : Graph), g.edges.Nodup → (edgeBatch g l).edges.Nodup := by
  induction l with
  | nil => intro g h; exact h
  | cons e l ih =>
    intro g h
    rw [edgeBatch_cons]
    exact ih _ (nodup_edges_upsertEdge g e h)

theorem nodup_ids_mergeNode (g : Graph) (id : String × Val)
    (h : g.ids.Nodup) : (mergeNode g id).ids.Nodup := by
  rw [ids_mergeNode]
  by_cases hm : id ∈ g.ids
  · rw [if_pos hm]; exact h
  · rw [if_neg hm, List.nodup_append]
    exact ⟨h, List.nodup_singleton id, List.disjoint_singleton.mpr hm⟩

theorem nodup_ids_upsertEdge (g : Graph) (e : Edge)
    (h : g.ids.Nodup) : (upsertEdge g e).ids.Nodup := by
  unfold upsertEdge
  rw [ids_addEdgeG]
  exact nodup_ids_mergeNode _ _ (nodup_ids_mergeNode _ _ h)

theorem nodup_ids_edgeBatch (l : List Edge) :
    ∀ (g : Graph), g.ids.Nodup → (edgeBatch g l).ids.Nodup := by
  induction l with
  | nil => intro g h; exact h
  | cons e l ih =>
    intro g h
    rw [edgeBatch_cons]
    exact ih _ (nodup_ids_upsertEdge g e h)

theorem nodup_ids_cnwp (label : String) :
    ∀ (bags : List (List (String × Val))) (g : Graph),
      g.ids.Nodup → (create_nodes_with_props g label bags).ids.Nodup := by
  intro bags
  induction bags with
  | nil => intro g h; exact h
  | cons b bs ih =>
    intro g h
    rw [cnwp_cons]
    apply ih
    rw [ids_setProps]
    exact nodup_ids_mergeNode _ _ h

/-- Claim C6: the upsert operations are idempotent.  Running
`create_nodes_with_props` a second time with the same batch leaves the
node identity list, every property lookup, and the edge set unchanged;
running the edge upsert a second time with the same edge list yields the
very same graph, with exactly one edge per distinct
(source, target, type) triple and no duplicate nodes or parallel edges
(given a duplicate-free starting graph). -/
theorem c6_upsert_idempotent (g : Graph) (label : String)
    (bags : List (List (String × Val))) (l : List Edge)
    (hne : g.edges.Nodup) (hni : g.ids.Nodup) :
    (create_nodes_with_props (create_nodes_with_props g label bags)
          label bags).ids =
        (create_nodes_with_props g label bags).ids ∧
      (∀ (id : String × Val) (k : String),
        lookupProp (create_nodes_with_props
            (create_nodes_with_props g label bags) label bags) id k =
          lookupProp (create_nodes_with_props g label bags) id k) ∧
      (create_nodes_with_props (create_nodes_with_props g label bags)
          label bags).edges =
        (create_nodes_with_props g label bags).edges ∧
      edgeBatch (edgeBatch g l) l = edgeBatch g l ∧
      (∀ e ∈ l, (edgeBatch (edgeBatch g l) l).edges.count e = 1) ∧
      (edgeBatch (edgeBatch g l) l).edges.Nodup ∧
      (edgeBatch (edgeBatch g l) l).ids.Nodup ∧
      (create_nodes_with_props (create_nodes_with_props g label bags)
          label bags).ids.Nodup := by
  have hnod : (edgeBatch g l).edges.Nodup := nodup_edges_edgeBatch l g hne
  refine ⟨?_, ?_, ?_, edgeBatch_idem g l, ?_, ?_, ?_, ?_⟩
  · exact ids_cnwp_eq label bags _ (fun b hb => ids_cnwp_self label bags g b hb)
  · intro id k
    rw [lookupProp_cnwp label bags (create_nodes_with_props g label bags) id k]
    by_cases hc : id.1 = label ∧ id.2 ∈ bagNames bags
    · rcases List.mem_map.mp hc.2 with ⟨b, hb, hbn⟩
      have hmem1 : id ∈ (create_nodes_with_props g label bags).ids := by
        have := ids_cnwp_self label bags g b hb
        have hid : (label, bagName b) = id :=
          Prod.ext_iff.mpr ⟨hc.1.symm, hbn⟩
        rw [← hid]
        exact this
      rw [if_pos hc, if_pos hmem1,
        lookupProp_cnwp label bags g id k, if_pos hc, ← Option.or_assoc,
        Option.or_self]
    · rw [if_neg hc]
  · exact edges_cnwp label bags _
  · intro e he
    rw [edgeBatch_idem g l]
    exact List.count_eq_one_of_mem hnod (edgeBatch_all l g e he).2.2
  · rw [edgeBatch_idem g l]
    exact hnod
  · rw [edgeBatch_idem g l]
    exact nodup_ids_edgeBatch l g hni
  · exact nodup_ids_cnwp label bags _
      (nodup_ids_cnwp label bags g hni)

/-- A bag batch with two bags for the same identity. -/
def c6Bags : List (List (String × Val)) :=
  [[("name", Val.vStr "L1"), ("a", Val.vStr "1")],
   [("name", Val.vStr "L1"), ("a", Val.vStr "2")]]

/-- An edge list containing a repeated triple. -/
def c6Edges : List Edge :=
  [(("A", Val.vStr "x"), ("B", Val.vStr "y"), "R"),
   (("A", Val.vStr "x"), ("B", Val.vStr "y"), "R"),
   (("A", Val.vStr "x"), ("B", Val.vStr "z"), "R")]

/-- Witness for C6 at a concrete graph, bag batch (with a repeated name)
and edge list (with a repeated triple). -/
theorem c6_upsert_idempotent_witness :
    emptyGraph.edges.Nodup ∧ emptyGraph.ids.Nodup ∧
      edgeBatch (edgeBatch emptyGraph c6Edges) c6Edges =
        edgeBatch emptyGraph c6Edges ∧
      (∀ e ∈ c6Edges,
        (edgeBatch (edgeBatch emptyGraph c6Edges) c6Edges).edges.count e
          = 1) := by
  refine ⟨by decide, by decide, ?_, ?_⟩
  · exact (c6_upsert_idempotent emptyGraph "License" c6Bags c6Edges
      (by decide) (by decide)).2.2.2.1
  · exact (c6_upsert_idempotent emptyGraph "License" c6Bags c6Edges
      (by decide) (by decide)).2.2.2.2.1

/-! ### C8 — unconditional per-row relationship emission -/

theorem foldl_addEdgeG_ids (l : List Edge) :
    ∀ (g : Graph), (l.foldl addEdgeG g).ids = g.ids := by
  induction l with
  | nil => intro g; rfl
  | cons e l ih =>
    intro g
    rw [List.foldl_cons, ih, ids_addEdgeG]

theorem foldl_addEdgeG_edge_mono (l : List Edge) :
    ∀ (g : Graph) (e' : Edge), e' ∈ g.edges →
      e' ∈ (l.foldl addEdgeG g).edges := by
  induction l with
  | nil => intro g e' h; exact h
  | cons e l ih =>
    intro g e' h
    rw [List.foldl_cons]
    exact ih _ e' (edges_addEdgeG_mono g e e' h)

theorem foldl_addEdgeG_self (l : List Edge) :
    ∀ (g : Graph) (e : Edge), e ∈ l → e ∈ (l.foldl addEdgeG g).edges := by
  induction l with
  | nil => intro g e h; exact absurd h (List.not_mem_nil _)
  | cons e0 l ih =>
    intro g e h
    rw [List.foldl_cons]
    rcases List.mem_cons.mp h with h1 | h1
    · subst h1
      exact foldl_addEdgeG_edge_mono l _ e (edges_addEdgeG_mem g e)
    · exact ih _ e h1

theorem foldl_mergeNode_edges (l : List (String × Val)) :
    ∀ (g : Graph), (l.foldl mergeNode g).edges = g.edges := by
  induction l with
  | nil => intro g; rfl
  | cons id l ih =>
    intro g
    rw [List.foldl_cons, ih, edges_mergeNode]

theorem foldl_mergeNode_id_mono (l : List (String × Val)) :
    ∀ (g : Graph) (id : String × Val), id ∈ g.ids →
      id ∈ (l.foldl mergeNode g).ids := by
  induction l with
  | nil => intro g id h; exact h
  | cons id0 l ih =>
    intro g id h
    rw [List.foldl_cons]
    exact ih _ id (mem_ids_mergeNode_mono g id0 id h)

theorem foldl_mergeNode_self (l : List (String × Val)) :
    ∀ (g : Graph) (id : String × Val), id ∈ l →
      id ∈ (l.foldl mergeNode g).ids := by
  induction l with
  | nil => intro g id h; exact absurd h (List.not_mem_nil _)
  | cons id0 l ih =>
    intro g id h
    rw [List.foldl_cons]
    rcases List.mem_cons.mp h with h1 | h1
    · subst h1
      exact foldl_mergeNode_id_mono l _ id (mem_ids_mergeNode_self g id)
    · exact ih _ id h1

theorem rowRelEdges_endpoints_mem (w : WellRel) (e : Edge)
    (he : e ∈ rowRelEdges w) :
    e.1 ∈ rowRelNodes w ∧ e.2.1 ∈ rowRelNodes w := by
  simp only [rowRelEdges, List.mem_cons, List.not_mem_nil, or_false] at he
  rcases he with rfl | rfl | rfl | rfl | rfl | rfl | rfl | rfl <;>
    simp [rowRelNodes]

theorem applyWellRow_establishes (g : Graph) (w : WellRel) (e : Edge)
    (he : e ∈ rowRelEdges w) :
    e ∈ (applyWellRow g w).edges ∧ e.1 ∈ (applyWellRow g w).ids ∧
      e.2.1 ∈ (applyWellRow g w).ids := by
  unfold applyWellRow
  rcases rowRelEdges_endpoints_mem w e he with ⟨h1, h2⟩
  refine ⟨foldl_addEdgeG_self _ _ e he, ?_, ?_⟩
  · rw [foldl_addEdgeG_ids]
    exact foldl_mergeNode_self _ _ _ h1
  · rw [foldl_addEdgeG_ids]
    exact foldl_mergeNode_self _ _ _ h2

theorem applyWellRow_edge_mono (g : Graph) (w : WellRel) (e' : Edge)
    (h : e' ∈ g.edges) : e' ∈ (applyWellRow g w).edges := by
  unfold applyWellRow
  apply foldl_addEdgeG_edge_mono
  rw [foldl_mergeNode_edges]
  exact h

theorem applyWellRow_id_mono (g : Graph) (w : WellRel) (id : String × Val)
    (h : id ∈ g.ids) : id ∈ (applyWellRow g w).ids := by
  unfold applyWellRow
  rw [foldl_addEdgeG_ids]
  exact foldl_mergeNode_id_mono _ _ _ h

theorem wellFold_edge_mono (ws : List WellRel) :
    ∀ (g : Graph) (e' : Edge), e' ∈ g.edges →
      e' ∈ (ws.foldl applyWellRow g).edges := by
  induction ws with
  | nil => intro g e' h; exact h
  | cons w1 ws1 ih =>
    intro g e' h
    rw [List.foldl_cons]
    exact ih _ e' (applyWellRow_edge_mono g w1 e' h)

theorem wellFold_id_mono (ws : List WellRel) :
    ∀ (g : Graph) (id : String × Val), id ∈ g.ids →
      id ∈ (ws.foldl applyWellRow g).ids := by
  induction ws with
  | nil => intro g id h; exact h
  | cons w1 ws1 ih =>
    intro g id h
    rw [List.foldl_cons]
    exact ih _ id (applyWellRow_id_mono g w1 id h)

theorem wellFold_all (ws : List WellRel) :
    ∀ (g : Graph) (w : WellRel), w ∈ ws → ∀ e ∈ rowRelEdges w,
      e ∈ (ws.foldl applyWellRow g).edges ∧
        e.1 ∈ (ws.foldl applyWellRow g).ids ∧
        e.2.1 ∈ (ws.foldl applyWellRow g).ids := by
  induction ws with
  | nil => intro g w h; exact absurd h (List.not_mem_nil _)
  | cons w0 ws ih =>
    intro g w h e he
    rw [List.foldl_cons]
    rcases List.mem_cons.mp h with h1 | h1
    · subst h1
      rcases applyWellRow_establishes g w e he with ⟨h1, h2, h3⟩
      exact ⟨wellFold_edge_mono ws _ e h1, wellFold_id_mono ws _ e.1 h2,
        wellFold_id_mono ws _ e.2.1 h3⟩
    · exact ih _ w h1 e he

/-- Claim C8: for every cleaned well/wellbore row, the batch Cypher emits
all eight fixed relation edges in the required order — unconditionally,
with the row's values used as they stand (no sentinel filtering anywhere
in `rowRel`/`rowRelEdges`) — and the upsert materialises both endpoint
nodes of every such edge in the resulting graph, including nodes for
sentinel values (see the witness). -/
theorem c8_row_edges_unconditional (sch : List (String × CT))
    (rows : List (List Val)) (g : Graph) (r : List Val) (hr : r ∈ rows) :
    (rowRelEdges (rowRel sch r)).map (fun e => e.2.2) =
        ["HAS_LICENSE", "HAS_FIELD", "HAS_DISCOVERY", "HAS_WELL",
         "HAS_WELLBORE", "HAS_DRILLING_FACILITY", "HAS_FACILITY_TYPE_OF",
         "WAS_OPERATED_BY"] ∧
      (rowRelEdges (rowRel sch r)).map (fun e => (e.1.1, e.2.1.1)) =
        [("Area", "License"), ("License", "Field"), ("Field", "Discovery"),
         ("Discovery", "Well"), ("Well", "Wellbore"),
         ("Wellbore", "DrillingFacility"), ("Wellbore", "FacilityType"),
         ("Wellbore", "Operator")] ∧
      ∀ e ∈ rowRelEdges (rowRel sch r),
        e ∈ (wellBatch g (rows.map (fun r => rowRel sch r)) false).1.edges ∧
        e.1 ∈ (wellBatch g (rows.map (fun r => rowRel sch r)) false).1.ids ∧
        e.2.1 ∈ (wellBatch g (rows.map (fun r => rowRel sch r)) false).1.ids
    := by
  refine ⟨rfl, rfl, ?_⟩
  intro e he
  exact wellFold_all _ g (rowRel sch r)
    (List.mem_map.mpr ⟨r, hr, rfl⟩) e he

/-- Schema of the nine relationship key columns. -/
def c8Schema : List (String × CT) :=
  [("wlbMainArea", CT.s), ("wlbProductionLicence", CT.s), ("wlbField", CT.s),
   ("wlbDiscovery", CT.s), ("wlbWell", CT.s), ("wlbWellboreName", CT.s),
   ("wlbDrillingFacility", CT.s), ("wlbFacilityTypeDrilling", CT.s),
   ("wlbDrillingOperator", CT.s)]

/-- A cleaned row whose facility columns hold the fill sentinel. -/
def c8Row : List Val :=
  [Val.vStr "N", Val.vStr "L", Val.vStr "F", Val.vStr "D", Val.vStr "W1",
   Val.vStr "WB1", Val.vStr "missing", Val.vStr "missing", Val.vStr "Op"]

/-- Witness for C8: even with a sentinel-valued endpoint, the facility
edge is emitted and a node for the sentinel value itself exists. -/
theorem c8_row_edges_unconditional_witness :
    c8Row ∈ [c8Row] ∧
      ((("Wellbore", Val.vStr "WB1"),
          ("DrillingFacility", Val.vStr "missing"),
          "HAS_DRILLING_FACILITY") ∈ rowRelEdges (rowRel c8Schema c8Row)) ∧
      ((("Wellbore", Val.vStr "WB1"),
          ("DrillingFacility", Val.vStr "missing"),
          "HAS_DRILLING_FACILITY") ∈
        (wellBatch emptyGraph
          ([c8Row].map (fun r => rowRel c8Schema r)) false).1.edges) ∧
      ("DrillingFacility", Val.vStr "missing") ∈
        (wellBatch emptyGraph
          ([c8Row].map (fun r => rowRel c8Schema r)) false).1.ids := by
  refine ⟨List.mem_singleton.mpr rfl, by decide, ?_, ?_⟩
  · exact ((c8_row_edges_unconditional c8Schema [c8Row] emptyGraph c8Row
      (List.mem_singleton.mpr rfl)).2.2
      (("Wellbore", Val.vStr "WB1"),
        ("DrillingFacility", Val.vStr "missing"), "HAS_DRILLING_FACILITY")
      (by decide)).1
  · exact ((c8_row_edges_unconditional c8Schema [c8Row] emptyGraph c8Row
      (List.mem_singleton.mpr rfl)).2.2
      (("Wellbore", Val.vStr "WB1"),
        ("DrillingFacility", Val.vStr "missing"), "HAS_DRILLING_FACILITY")
      (by decide)).2.2

/-! ### Field-loop lemmas (used by C4 and C5) -/

theorem create_edge_eq_upsertEdge (g : Graph) (l1 : String) (v1 : Val)
    (l2 : String) (v2 : Val) (t : String) :
    create_edge g l1 v1 l2 v2 t = upsertEdge g ((l1, v1), (l2, v2), t) := rfl

theorem fieldLoopAux_edge_mono (sch : List (String × CT))
    (f1 f2 : Nat → Bool) :
    ∀ (rows : List (List Val)) (i0 : Nat) (g : Graph) (e : Edge),
      e ∈ g.edges → e ∈ (fieldLoopAux sch f1 f2 i0 g rows).1.edges := by
  intro rows
  induction rows with
  | nil => intro i0 g e h; exact h
  | cons r rest ih =>
    intro i0 g e h
    unfold fieldLoopAux
    by_cases h1 : f1 i0
    · rw [if_pos h1]
      exact ih (i0 + 1) g e h
    · rw [if_neg h1]
      by_cases h2 : f2 i0
      · rw [if_pos h2]
        exact ih (i0 + 1) _ e
          (upsertEdge_edge_mono _ _ e h)
      · rw [if_neg h2]
        exact ih (i0 + 1) _ e
          (upsertEdge_edge_mono _ _ e (upsertEdge_edge_mono _ _ e h))

theorem fieldLoopAux_id_mono (sch : List (String × CT))
    (f1 f2 : Nat → Bool) :
    ∀ (rows : List (List Val)) (i0 : Nat) (g : Graph) (id : String × Val),
      id ∈ g.ids → id ∈ (fieldLoopAux sch f1 f2 i0 g rows).1.ids := by
  intro rows
  induction rows with
  | nil => intro i0 g id h; exact h
  | cons r rest ih =>
    intro i0 g id h
    unfold fieldLoopAux
    by_cases h1 : f1 i0
    · rw [if_pos h1]
      exact ih (i0 + 1) g id h
    · rw [if_neg h1]
      by_cases h2 : f2 i0
      · rw [if_pos h2]
        exact ih (i0 + 1) _ id (upsertEdge_id_mono _ _ id h)
      · rw [if_neg h2]
        exact ih (i0 + 1) _ id
          (upsertEdge_id_mono _ _ id (upsertEdge_id_mono _ _ id h))

/-- Per-row specification of the field relationship loop, for an
arbitrary start index: a failing row logs one error carrying its index, a
non-failing first call materialises the MANAGES edge, and a fully
successful row also materialises the HAS_SUPPLYBASE_OF edge together with
its `Base`-labelled target node; rows are processed independently, so
failures of other rows never block a row's own processing. -/
theorem fieldLoopAux_spec (sch : List (String × CT)) (f1 f2 : Nat → Bool) :
    ∀ (rows : List (List Val)) (i0 : Nat) (g : Graph) (j : Nat)
      (r : List Val), rows.get? j = some r →
      (f1 (i0 + j) = true →
        Ev.fieldEdgeError (i0 + j) ∈ (fieldLoopAux sch f1 f2 i0 g rows).2) ∧
      (f1 (i0 + j) = false → f2 (i0 + j) = true →
        Ev.fieldEdgeError (i0 + j) ∈ (fieldLoopAux sch f1 f2 i0 g rows).2) ∧
      (f1 (i0 + j) = false →
        (("Operator", getCell sch r "cmpLongName"),
          ("Field", getCell sch r "fldName"), "MANAGES") ∈
          (fieldLoopAux sch f1 f2 i0 g rows).1.edges) ∧
      (f1 (i0 + j) = false → f2 (i0 + j) = false →
        (("Field", getCell sch r "fldName"),
          ("Base", getCell sch r "fldMainSupplyBase"), "HAS_SUPPLYBASE_OF") ∈
            (fieldLoopAux sch f1 f2 i0 g rows).1.edges ∧
          ("Base", getCell sch r "fldMainSupplyBase") ∈
            (fieldLoopAux sch f1 f2 i0 g rows).1.ids) := by
  intro rows
  induction rows with
  | nil => intro i0 g j r h; rw [List.get?_nil] at h; exact absurd h (by simp)
  | cons r0 rest ih =>
    intro i0 g j r h
    cases j with
    | zero =>
      rw [List.get?_cons_zero, Option.some.injEq] at h
      subst h
      unfold fieldLoopAux
      by_cases h1 : f1 i0
      · rw [if_pos h1]
        exact ⟨fun _ => List.mem_cons_self _ _,
          fun hf => absurd hf (by simp [h1]),
          fun hf => absurd hf (by simp [h1]),
          fun hf => absurd hf (by simp [h1])⟩
      · rw [if_neg h1]
        have h1f : f1 (i0 + 0) = false := by
          simpa using Bool.of_not_eq_true h1
        by_cases h2 : f2 i0
        · rw [if_pos h2]
          refine ⟨fun hf => absurd hf (by simpa using h1), ?_, ?_, ?_⟩
          · intro _ _; exact List.mem_cons_self _ _
          · intro _
            apply fieldLoopAux_edge_mono
            rw [create_edge_eq_upsertEdge]
            exact (upsertEdge_self _ _).2.2
          · intro _ hf
            exact absurd h2 (by simpa using hf)
        · rw [if_neg h2]
          refine ⟨fun hf => absurd hf (by simpa using h1), ?_, ?_, ?_⟩
          · intro _ hf
            exact absurd h2 (by simpa using hf)
          · intro _
            apply fieldLoopAux_edge_mono
            rw [create_edge_eq_upsertEdge, create_edge_eq_upsertEdge]
            exact upsertEdge_edge_mono _ _ _ (upsertEdge_self _ _).2.2
          · intro _ _
            constructor
            · apply fieldLoopAux_edge_mono
              rw [create_edge_eq_upsertEdge]
              exact (upsertEdge_self _ _).2.2
            · apply fieldLoopAux_id_mono
              rw [create_edge_eq_upsertEdge]
              exact (upsertEdge_self _ _).2.1
    | succ j' =>
      rw [List.get?_cons_succ] at h
      have harith : i0 + (j' + 1) = (i0 + 1) + j' := by omega
      unfold fieldLoopAux
      by_cases h1 : f1 i0
      · rw [if_pos h1]
        rcases ih (i0 + 1) g j' r h with ⟨c1, c2, c3, c4⟩
        rw [harith]
        exact ⟨fun hf => List.mem_cons_of_mem _ (c1 hf),
          fun hf hg => List.mem_cons_of_mem _ (c2 hf hg), c3, c4⟩
      · rw [if_neg h1]
        by_cases h2 : f2 i0
        · rw [if_pos h2]
          rcases ih (i0 + 1) _ j' r h with ⟨c1, c2, c3, c4⟩
          rw [harith]
          exact ⟨fun hf => List.mem_cons_of_mem _ (c1 hf),
            fun hf hg => List.mem_cons_of_mem _ (c2 hf hg), c3, c4⟩
        · rw [if_neg h2]
          rcases ih (i0 + 1) _ j' r h with ⟨c1, c2, c3, c4⟩
          rw [harith]
          exact ⟨c1, c2, c3, c4⟩

/-! ### C2 — connection failure and extraction order -/

/-- Claim C2 (amended): a Graph Store connection failure aborts the run
immediately — a single connection attempt, no retry, no loader call, no
graph mutation — but the abort happens after extraction, not before:
`main` constructs the `Neo4jHandler` only once cleaning, unique-value
collection and property-bag building are complete, so a failed run's
trace is exactly the extraction trace followed by the connection
failure. -/
theorem c2_connect_failure_aborts_after_extraction
    (licRaw fieldRaw wlbRaw : Table) (g0 : Graph) (bf : Bool)
    (f1 f2 : Nat → Bool) (st : ExtractState)
    (h : extractionPhase licRaw fieldRaw wlbRaw = some st) :
    mainRun licRaw fieldRaw wlbRaw g0 false bf f1 f2 =
      (extractionTrace ++ [Ev.connectFail], none) := by
  unfold mainRun
  rw [h]
  rfl

/-- Witness for C2 (amended) at the concrete tables. -/
theorem c2_connect_failure_aborts_after_extraction_witness :
    mainRun ceLicenseTable ceFieldTable ceWellTable emptyGraph false false
        (fun _ => false) (fun _ => false) =
      (extractionTrace ++ [Ev.connectFail], none) :=
  c2_connect_failure_aborts_after_extraction ceLicenseTable ceFieldTable
    ceWellTable emptyGraph false (fun _ => false) (fun _ => false)
    ((extractionPhase ceLicenseTable ceFieldTable ceWellTable).get
      (by decide))
    (Option.some_get (by decide)).symm

/-- Counterexample to C2 as frozen: in a run whose connection attempt
fails, extraction work (cleaning, unique-value collection, property-bag
building) has already been performed — its events precede the failure in
the trace — so the abort does not happen before extraction. -/
theorem c2_extraction_precedes_connect_abort :
    Ev.cleanedLicense ∈ (mainRun ceLicenseTable ceFieldTable ceWellTable
        emptyGraph false false (fun _ => false) (fun _ => false)).1 ∧
      Ev.builtWellboreBags ∈ (mainRun ceLicenseTable ceFieldTable ceWellTable
        emptyGraph false false (fun _ => false) (fun _ => false)).1 ∧
      (mainRun ceLicenseTable ceFieldTable ceWellTable emptyGraph false false
        (fun _ => false) (fun _ => false)).2 = none := by
  decide

/-! ### C4 — row-level failure handling -/

/-- Claim C4 (amended): the two relationship-producing constructs handle
failures differently.  The field relationship loop has per-row semantics:
a failing row logs one error carrying its row index and only that row's
remaining work is skipped, every other row being processed regardless of
which rows fail.  The well-relationship batch is a single bulk
submission inside one try/except: when it fails, the whole batch is lost
(the graph is unchanged) and one error is logged without any row index.
No accumulated final report of skipped indices is produced by either. -/
theorem c4_row_failures (sch : List (String × CT)) (f1 f2 : Nat → Bool)
    (g : Graph) (ws : List WellRel) (rows : List (List Val)) (i : Nat)
    (r : List Val) (h : rows.get? i = some r) :
    wellBatch g ws true = (g, [Ev.wellRelBatchError]) ∧
      (f1 i = true →
        Ev.fieldEdgeError i ∈ (fieldLoopAux sch f1 f2 0 g rows).2) ∧
      (f1 i = false → f2 i = true →
        Ev.fieldEdgeError i ∈ (fieldLoopAux sch f1 f2 0 g rows).2) ∧
      (f1 i = false →
        (("Operator", getCell sch r "cmpLongName"),
          ("Field", getCell sch r "fldName"), "MANAGES") ∈
          (fieldLoopAux sch f1 f2 0 g rows).1.edges) ∧
      (f1 i = false → f2 i = false →
        (("Field", getCell sch r "fldName"),
          ("Base", getCell sch r "fldMainSupplyBase"), "HAS_SUPPLYBASE_OF") ∈
          (fieldLoopAux sch f1 f2 0 g rows).1.edges) := by
  rcases fieldLoopAux_spec sch f1 f2 rows 0 g i r h with ⟨c1, c2, c3, c4⟩
  rw [Nat.zero_add] at c1 c2 c3 c4
  exact ⟨rfl, c1, c2, c3, fun ha hb => (c4 ha hb).1⟩

/-- Schema used by the C4/C5 witnesses for the field loop. -/
def c4Schema : List (String × CT) :=
  [("cmpLongName", CT.s), ("fldName", CT.s), ("fldMainSupplyBase", CT.s)]

/-- Two field rows; the witness makes row 0 fail and row 1 succeed. -/
def c4Rows : List (List Val) :=
  [[Val.vStr "Op0", Val.vStr "F0", Val.vStr "SB0"],
   [Val.vStr "Op1", Val.vStr "F1", Val.vStr "SB1"]]

/-- The failure oracle of the C4 witness: only row 0 raises. -/
def c4Fails (i : Nat) : Bool := decide (i = 0)

/-- Witness for C4 (amended): with row 0 failing, its index is logged and
row 1 is still processed. -/
theorem c4_row_failures_witness :
    c4Rows.get? 0 = some [Val.vStr "Op0", Val.vStr "F0", Val.vStr "SB0"] ∧
      c4Rows.get? 1 = some [Val.vStr "Op1", Val.vStr "F1", Val.vStr "SB1"] ∧
      Ev.fieldEdgeError 0 ∈
        (fieldLoopAux c4Schema c4Fails (fun _ => false) 0 emptyGraph
          c4Rows).2 ∧
      (("Operator", Val.vStr "Op1"), ("Field", Val.vStr "F1"), "MANAGES") ∈
        (fieldLoopAux c4Schema c4Fails (fun _ => false) 0 emptyGraph
          c4Rows).1.edges := by
  refine ⟨by decide, by decide, ?_, ?_⟩
  · exact (c4_row_failures c4Schema c4Fails (fun _ => false) emptyGraph []
      c4Rows 0 [Val.vStr "Op0", Val.vStr "F0", Val.vStr "SB0"]
      (by decide)).2.1 (by decide)
  · have := (c4_row_failures c4Schema c4Fails (fun _ => false) emptyGraph []
      c4Rows 1 [Val.vStr "Op1", Val.vStr "F1", Val.vStr "SB1"]
      (by decide)).2.2.2.1 (by decide)
    simpa using this

/-- Counterexample to C4 as frozen: when the single bulk well-relationship
submission fails, every row of the batch is lost — not just the offending
one — and the error event carries no row index; here neither row's
HAS_WELLBORE edge reaches the graph. -/
theorem c4_batch_failure_skips_all_rows :
    Ev.wellRelBatchError ∈ (mainRun ceLicenseTable ceFieldTable ceWellTable
        emptyGraph true true (fun _ => false) (fun _ => false)).1 ∧
      (("Well", Val.vStr "W1"), ("Wellbore", Val.vStr "WB1"), "HAS_WELLBORE")
        ∉ ((mainRun ceLicenseTable ceFieldTable ceWellTable emptyGraph true
          true (fun _ => false) (fun _ => false)).2.getD emptyGraph).edges ∧
      (("Well", Val.vStr "W2"), ("Wellbore", Val.vStr "WB2"), "HAS_WELLBORE")
        ∉ ((mainRun ceLicenseTable ceFieldTable ceWellTable emptyGraph true
          true (fun _ => false) (fun _ => false)).2.getD emptyGraph).edges ∧
      (mainRun ceLicenseTable ceFieldTable ceWellTable emptyGraph true true
        (fun _ => false) (fun _ => false)).2.isSome = true := by
  decide

/-! ### C5 — supply-base node label -/

/-- Claim C5 (amended): supply-base entities are materialised as nodes
with label `Base` — not `SupplyBase`, which appears in no loader call —
and for each fully processed field row an edge
`Field:fldName → Base:fldMainSupplyBase` of type `HAS_SUPPLYBASE_OF` is
upserted whose target node (labelled `Base`) exists in the resulting
graph. -/
theorem c5_supply_base_label (st : ExtractState) (sch : List (String × CT))
    (f1 f2 : Nat → Bool) (g : Graph) (rows : List (List Val)) (i : Nat)
    (r : List Val) (h : rows.get? i = some r) (h1 : f1 i = false)
    (h2 : f2 i = false) :
    ("Base", NodeBatch.plain st.supplyBases) ∈ nodeCalls st ∧
      (∀ c ∈ nodeCalls st, c.1 ≠ "SupplyBase") ∧
      (("Field", getCell sch r "fldName"),
        ("Base", getCell sch r "fldMainSupplyBase"), "HAS_SUPPLYBASE_OF") ∈
        (fieldLoopAux sch f1 f2 0 g rows).1.edges ∧
      ("Base", getCell sch r "fldMainSupplyBase") ∈
        (fieldLoopAux sch f1 f2 0 g rows).1.ids := by
  rcases fieldLoopAux_spec sch f1 f2 rows 0 g i r h with ⟨_, _, _, c4⟩
  rw [Nat.zero_add] at c4
  rcases c4 h1 h2 with ⟨he, hn⟩
  refine ⟨?_, ?_, he, hn⟩
  · unfold nodeCalls
    simp
  · intro c hc
    unfold nodeCalls at hc
    simp only [List.mem_cons, List.not_mem_nil, or_false] at hc
    rcases hc with rfl | rfl | rfl | rfl | rfl | rfl | rfl | rfl | rfl | rfl
      <;> simp

/-- Witness for C5 (amended) at the concrete field rows. -/
theorem c5_supply_base_label_witness :
    c4Rows.get? 1 = some [Val.vStr "Op1", Val.vStr "F1", Val.vStr "SB1"] ∧
      (("Field", Val.vStr "F1"), ("Base", Val.vStr "SB1"),
        "HAS_SUPPLYBASE_OF") ∈
        (fieldLoopAux c4Schema (fun _ => false) (fun _ => false) 0 emptyGraph
          c4Rows).1.edges := by
  refine ⟨by decide, ?_⟩
  have := (c5_supply_base_label
    ⟨ceLicenseTable, [], [], ceFieldTable, [], [], [], ceWellTable, [], [],
      [], [], [], [], [], [], []⟩
    c4Schema (fun _ => false) (fun _ => false) emptyGraph c4Rows 1
    [Val.vStr "Op1", Val.vStr "F1", Val.vStr "SB1"]
    (by decide) rfl rfl).2.2.1
  simpa using this

/-- Counterexample to C5 as frozen: in a successful concrete run the
supply-base node exists under label `Base`, the `HAS_SUPPLYBASE_OF` edge
targets that `Base` node, and no node labelled `SupplyBase` exists at
all. -/
theorem c5_supply_base_materialized_as_base :
    ("Base", Val.vStr "SB1") ∈
        ((mainRun ceLicenseTable ceFieldTable ceWellTable emptyGraph true
          false (fun _ => false) (fun _ => false)).2.getD emptyGraph).ids ∧
      (("Field", Val.vStr "F1"), ("Base", Val.vStr "SB1"),
        "HAS_SUPPLYBASE_OF") ∈
        ((mainRun ceLicenseTable ceFieldTable ceWellTable emptyGraph true
          false (fun _ => false) (fun _ => false)).2.getD emptyGraph).edges ∧
      (((mainRun ceLicenseTable ceFieldTable ceWellTable emptyGraph true
          false (fun _ => false) (fun _ => false)).2.getD
            emptyGraph).ids.all
        (fun id => decide (id.1 ≠ "SupplyBase"))) = true := by
  decide

end GraphUpstream
